import Mathlib

/-!
# Verification of the hancock request-signing library

Shallow embedding of the Go package `hancock` (files `src/hancock.go`,
`src/unnamed/part_000`, `src/unnamed/part_001`, `src/unnamed/part_002`,
`src/wrappers/wrappers.go`) and proofs about its sign/validate protocol.

Modelling conventions:
* Go strings are byte strings; we model them as `List Nat` with every
  element `< 256` for well-formed data (`bytesOk`).
* `url.Values` (`map[string][]string`) is modelled as an association list
  sorted strictly by key.  Go maps have no observable iteration order and
  `url.Values.Encode` sorts keys, so the sorted representative is a faithful
  quotient of the Go map; map equality becomes list equality.
* `time.Now().UTC().Unix()` is passed explicitly as a `now : Int` argument.
* Go `int`/`int64` arithmetic wraps in two's complement; `wrap64` applies the
  wrap explicitly where the source can overflow.
* Functions that mutate a caller-visible Go map return the post-call state of
  that map as an extra component, derived from the writes in the source.
-/

set_option maxRecDepth 100000
set_option maxHeartbeats 4000000

namespace Hancock

/-- Go strings are byte strings; modelled as lists of naturals (each `< 256`
for well-formed data). -/
abbrev GoStr : Type := List Nat

/-- The bytes of an ASCII string literal (used to transcribe the Go string
literals appearing in the source; all of them are ASCII). -/
def asciiBytes (s : String) : GoStr := s.data.map Char.toNat

/-- Every byte of a modelled Go string is an actual byte. -/
def bytesOk (s : GoStr) : Bool := s.all (fun c => c < 256)

/-! ## SHA-256 (FIPS 180-4), as used by Go `crypto/sha256`

32-bit words are naturals taken modulo `2 ^ 32`. -/

/-- Truncate to a 32-bit word. -/
def w32 (x : Nat) : Nat := x % 2 ^ 32

/-- Truncate to a byte. -/
def w8 (x : Nat) : Nat := x % 256

/-- 32-bit rotate right. -/
def rotr32 (x n : Nat) : Nat := w32 ((x >>> n) ||| (x <<< (32 - n)))

/-- SHA-256 round constants (FIPS 180-4 section 4.2.2, written in decimal). -/
def sha256K : List Nat :=
  [1116352408, 1899447441, 3049323471, 3921009573, 961987163, 1508970993,
   2453635748, 2870763221, 3624381080, 310598401, 607225278, 1426881987,
   1925078388, 2162078206, 2614888103, 3248222580, 3835390401, 4022224774,
   264347078, 604807628, 770255983, 1249150122, 1555081692, 1996064986,
   2554220882, 2821834349, 2952996808, 3210313671, 3336571891, 3584528711,
   113926993, 338241895, 666307205, 773529912, 1294757372, 1396182291,
   1695183700, 1986661051, 2177026350, 2456956037, 2730485921, 2820302411,
   3259730800, 3345764771, 3516065817, 3600352804, 4094571909, 275423344,
   430227734, 506948616, 659060556, 883997877, 958139571, 1322822218,
   1537002063, 1747873779, 1955562222, 2024104815, 2227730452, 2361852424,
   2428436474, 2756734187, 3204031479, 3329325298]

/-- SHA-256 initial hash value (FIPS 180-4 section 5.3.3, in decimal). -/
def sha256H0 : List Nat :=
  [1779033703, 3144134277, 1013904242, 2773480762, 1359893119, 2600822924,
   528734635, 1541459225]

/-- A 64-bit value as 8 big-endian bytes. -/
def toBE64 (n : Nat) : GoStr :=
  [w8 (n >>> 56), w8 (n >>> 48), w8 (n >>> 40), w8 (n >>> 32),
   w8 (n >>> 24), w8 (n >>> 16), w8 (n >>> 8), w8 n]

/-- SHA-256 padding: append `0x80`, zeros to 56 mod 64, then the bit length
as 8 big-endian bytes. -/
def padMsg (msg : GoStr) : GoStr :=
  msg ++ 128 :: List.replicate ((119 - msg.length % 64) % 64) 0
      ++ toBE64 (8 * msg.length)

/-- Split a (padded) message into 64-byte blocks (fuel-driven structural
recursion so that the kernel can evaluate it; the fuel `l.length` always
suffices). -/
def chunks64Aux : Nat → GoStr → List GoStr
  | 0, _ => []
  | _, [] => []
  | fuel + 1, c :: rest => (c :: rest).take 64 :: chunks64Aux fuel (rest.drop 63)

/-- Split a (padded) message into 64-byte blocks. -/
def chunks64 (l : GoStr) : List GoStr := chunks64Aux l.length l

/-- Group bytes into big-endian 32-bit words. -/
def bytesToWords : GoStr → List Nat
  | a :: b :: c :: d :: rest =>
      (((a * 256 + b) * 256 + c) * 256 + d) :: bytesToWords rest
  | _ => []

/-- Extend the 16 block words by `rounds` further schedule words. -/
def buildSched (w : List Nat) : Nat → List Nat
  | 0 => w
  | r + 1 =>
    let n := w.length
    let x15 := w.getD (n - 15) 0
    let x2 := w.getD (n - 2) 0
    let s0 := rotr32 x15 7 ^^^ rotr32 x15 18 ^^^ (x15 >>> 3)
    let s1 := rotr32 x2 17 ^^^ rotr32 x2 19 ^^^ (x2 >>> 10)
    buildSched (w ++ [w32 (w.getD (n - 16) 0 + s0 + w.getD (n - 7) 0 + s1)]) r

/-- SHA-256 choice function. -/
def shaCh (x y z : Nat) : Nat := (x &&& y) ^^^ ((0xffffffff ^^^ x) &&& z)

/-- SHA-256 majority function. -/
def shaMaj (x y z : Nat) : Nat := (x &&& y) ^^^ (x &&& z) ^^^ (y &&& z)

/-- SHA-256 big sigma 0. -/
def bigSigma0 (x : Nat) : Nat := rotr32 x 2 ^^^ rotr32 x 13 ^^^ rotr32 x 22

/-- SHA-256 big sigma 1. -/
def bigSigma1 (x : Nat) : Nat := rotr32 x 6 ^^^ rotr32 x 11 ^^^ rotr32 x 25

/-- Compress one 64-byte block into the running hash state (8 words). -/
def sha256Compress (hs : List Nat) (block : GoStr) : List Nat :=
  let w := buildSched (bytesToWords block) 48
  let kw := sha256K.zip w
  let st := kw.foldl
    (fun (t : Nat × Nat × Nat × Nat × Nat × Nat × Nat × Nat) (p : Nat × Nat) =>
      let (a, b, c, d, e, f, g, hh) := t
      let t1 := w32 (hh + bigSigma1 e + shaCh e f g + p.1 + p.2)
      let t2 := w32 (bigSigma0 a + shaMaj a b c)
      (w32 (t1 + t2), a, b, c, w32 (d + t1), e, f, g))
    (hs.getD 0 0, hs.getD 1 0, hs.getD 2 0, hs.getD 3 0,
     hs.getD 4 0, hs.getD 5 0, hs.getD 6 0, hs.getD 7 0)
  let (a, b, c, d, e, f, g, hh) := st
  [w32 (hs.getD 0 0 + a), w32 (hs.getD 1 0 + b), w32 (hs.getD 2 0 + c),
   w32 (hs.getD 3 0 + d), w32 (hs.getD 4 0 + e), w32 (hs.getD 5 0 + f),
   w32 (hs.getD 6 0 + g), w32 (hs.getD 7 0 + hh)]

/-- SHA-256 digest of a byte string, as 32 bytes. -/
def sha256 (msg : GoStr) : GoStr :=
  let hs := (chunks64 (padMsg msg)).foldl sha256Compress sha256H0
  hs.foldr (fun wrd acc =>
    w8 (wrd >>> 24) :: w8 (wrd >>> 16) :: w8 (wrd >>> 8) :: w8 wrd :: acc) []

/-- HMAC-SHA256 (RFC 2104), as Go `hmac.New(sha256.New, key)` followed by
`Write`/`Sum`. -/
def hmacSha256 (key msg : GoStr) : GoStr :=
  let k0 := if 64 < key.length then sha256 key else key
  let k1 := k0 ++ List.replicate (64 - k0.length) 0
  let ipad := k1.map (fun c => c ^^^ 0x36)
  let opad := k1.map (fun c => c ^^^ 0x5c)
  sha256 (opad ++ sha256 (ipad ++ msg))

/-- One sextet as a byte of Go's `base64.URLEncoding` alphabet
(`A-Z a-z 0-9 - _`). -/
def b64Char (n : Nat) : Nat :=
  if n < 26 then 65 + n
  else if n < 52 then 71 + n
  else if n < 62 then n - 4
  else if n = 62 then 45
  else 95

/-- Go `base64.URLEncoding.EncodeToString`: URL-safe alphabet, with `=`
padding. -/
def base64urlEncode : GoStr → GoStr
  | a :: b :: c :: rest =>
    let n := (a * 256 + b) * 256 + c
    b64Char (n >>> 18) :: b64Char ((n >>> 12) % 64) ::
      b64Char ((n >>> 6) % 64) :: b64Char (n % 64) :: base64urlEncode rest
  | [a, b] =>
    let n := (a * 256 + b) * 256
    [b64Char (n >>> 18), b64Char ((n >>> 12) % 64), b64Char ((n >>> 6) % 64), 61]
  | [a] =>
    let n := a * 256 * 256
    [b64Char (n >>> 18), b64Char ((n >>> 12) % 64), 61, 61]
  | [] => []

/-! ## `url.Values` and Go query-string encoding/parsing

`url.Values` is `map[string][]string`.  Go maps have no observable iteration
order, so we model a map as an association list sorted strictly by key
(bytewise lexicographic order, the order `sort.Strings` uses); map equality
is then plain list equality. -/

/-- Strict bytewise lexicographic order on byte strings (Go `<` on strings,
the order used by `sort.Strings` in `url.Values.Encode`). -/
def lexLt : GoStr → GoStr → Bool
  | _, [] => false
  | [], _ :: _ => true
  | a :: as, b :: bs => a < b || (a == b && lexLt as bs)

/-- `url.Values`: a Go map from key to list of values, represented as a
key-sorted association list. -/
abbrev Values : Type := List (GoStr × List GoStr)

/-- Map lookup: the value slice stored under a key, if present. -/
def Values.lookupVals : Values → GoStr → Option (List GoStr)
  | [], _ => none
  | (k', vs) :: rest, k => if k = k' then some vs else Values.lookupVals rest k

/-- Go `Values.Get`: the first value for the key, or `""` if absent/empty. -/
def Values.get (v : Values) (k : GoStr) : GoStr :=
  match v.lookupVals k with
  | some (x :: _) => x
  | _ => []

/-- All values stored under a key (Go `v[k]`). -/
def Values.getAll (v : Values) (k : GoStr) : List GoStr :=
  (v.lookupVals k).getD []

/-- Go `Values.Del` / `delete(v, k)`: remove the key. -/
def Values.del : Values → GoStr → Values
  | [], _ => []
  | (k', vs) :: rest, k =>
    if k' = k then Values.del rest k else (k', vs) :: Values.del rest k

/-- Go `Values.Add`: append a value to the slice under the key, creating the
entry if absent (insertion keeps the representation key-sorted). -/
def Values.add : Values → GoStr → GoStr → Values
  | [], k, x => [(k, [x])]
  | (k', vs) :: rest, k, x =>
    if k = k' then (k', vs ++ [x]) :: rest
    else if lexLt k k' then (k, [x]) :: (k', vs) :: rest
    else (k', vs) :: Values.add rest k x

/-- Every listed key is `lexLt`-above `k`. -/
def allGt (k : GoStr) (v : Values) : Bool := v.all (fun p => lexLt k p.1)

/-- Keys are strictly sorted (hence distinct), pairwise form. -/
def keysSortedB : Values → Bool
  | [] => true
  | p :: rest => allGt p.1 rest && keysSortedB rest

/-- Well-formed representation of a Go `url.Values`: strictly sorted keys,
no empty value slices, and every key and value a genuine byte string. -/
def Values.wf (v : Values) : Bool :=
  keysSortedB v && v.all (fun p => bytesOk p.1 && !p.2.isEmpty && p.2.all bytesOk)

/-- Byte is in Go's `shouldEscape` unreserved set for query components:
alphanumerics and `- _ . ~`. -/
def isUnreservedByte (c : Nat) : Bool :=
  (65 ≤ c && c ≤ 90) || (97 ≤ c && c ≤ 122) || (48 ≤ c && c ≤ 57) ||
  c == 45 || c == 46 || c == 95 || c == 126

/-- Upper-case hex digit byte of a value `< 16`. -/
def hexUpper (n : Nat) : Nat := if n < 10 then 48 + n else 55 + n

/-- Go `url.QueryEscape`: keep unreserved bytes, space to `+`, everything
else to `%XX` with upper-case hex. -/
def queryEscape : GoStr → GoStr
  | [] => []
  | c :: rest =>
    (if isUnreservedByte c then [c]
     else if c == 32 then [43]
     else [37, hexUpper (c / 16), hexUpper (c % 16)]) ++ queryEscape rest

/-- Value of a hex digit byte (Go `unhex`). -/
def hexVal (c : Nat) : Option Nat :=
  if 48 ≤ c && c ≤ 57 then some (c - 48)
  else if 97 ≤ c && c ≤ 102 then some (c - 87)
  else if 65 ≤ c && c ≤ 70 then some (c - 55)
  else none

/-- Go `url.QueryUnescape`: `%XX` to the byte (error on malformed escapes),
`+` to space, all else literal. -/
def queryUnescape : GoStr → Option GoStr
  | [] => some []
  | c :: rest =>
    if c = 37 then
      match rest with
      | a :: b :: rest' =>
        match hexVal a, hexVal b with
        | some hi, some lo => (queryUnescape rest').map (fun r => (16 * hi + lo) :: r)
        | _, _ => none
      | _ => none
    else if c = 43 then (queryUnescape rest).map (fun r => 32 :: r)
    else (queryUnescape rest).map (fun r => c :: r)

/-- Split a byte string at every occurrence of a byte (the segment list the
Go `strings.Cut(query, "&")` loop walks through). -/
def splitOnByte (b : Nat) : GoStr → List GoStr
  | [] => [[]]
  | c :: rest =>
    match splitOnByte b rest with
    | [] => [[]]
    | s :: ss => if c = b then [] :: s :: ss else (c :: s) :: ss

/-- Go `strings.Cut` at the first occurrence of a byte: `(before, after)`,
with `after = []` when the byte is absent. -/
def cutByte (b : Nat) : GoStr → GoStr × GoStr
  | [] => ([], [])
  | c :: rest =>
    if c = b then ([], rest)
    else
      let p := cutByte b rest
      (c :: p.1, p.2)

/-- Does the byte occur in the string (Go `strings.Contains`)? -/
def containsByte (b : Nat) (s : GoStr) : Bool := s.any (fun c => c == b)

/-- One iteration of the Go `parseQuery` loop on a single `&`-segment: skip
it if it contains `;`, is empty, or its key or value fails to unescape;
otherwise cut at the first `=` and `Add` the unescaped pair. -/
def parseStep (m : Values) (seg : GoStr) : Values :=
  if containsByte 59 seg then m
  else if seg = [] then m
  else
    let p := cutByte 61 seg
    match queryUnescape p.1, queryUnescape p.2 with
    | some k, some val => m.add k val
    | _, _ => m

/-- Go `url.ParseQuery` as used by `r.URL.Query()` (the error is discarded):
walk the `&`-segments with `parseStep`. -/
def parseQuery (query : GoStr) : Values :=
  (splitOnByte 38 query).foldl parseStep []

/-- Insert a string into a `lexLt`-sorted list (helper for `sortStrings`). -/
def insertStr (k : GoStr) : List GoStr → List GoStr
  | [] => [k]
  | x :: xs => if lexLt x k then x :: insertStr k xs else k :: x :: xs

/-- Sort strings ascending, as `sort.Strings` does in `Values.Encode`. -/
def sortStrings (l : List GoStr) : List GoStr := l.foldr insertStr []

/-- Join with `&` separators (the `buf.Len() > 0` guard in `Encode` writes a
`&` exactly between consecutive pairs). -/
def joinAmp : List GoStr → GoStr
  | [] => []
  | [p] => p
  | p :: ps => p ++ 38 :: joinAmp ps

/-- Go `url.Values.Encode`: sort the keys, then for each key in order emit
`QueryEscape(k) = QueryEscape(x)` for each of its values in slice order,
joined by `&`. -/
def Values.encode (v : Values) : GoStr :=
  let keys := sortStrings (v.map Prod.fst)
  joinAmp (keys.foldr
    (fun k acc =>
      ((v.lookupVals k).getD []).map (fun x => queryEscape k ++ 61 :: queryEscape x)
        ++ acc)
    [])

/-! ## Decimal formatting and parsing of 64-bit integers -/

/-- Decimal digits of a natural (fuel-driven so the kernel can evaluate it;
fuel `n + 1` always suffices since `n / 10` shrinks). -/
def natToDecAux : Nat → Nat → GoStr
  | 0, _ => []
  | fuel + 1, n => if n < 10 then [48 + n] else natToDecAux fuel (n / 10) ++ [48 + n % 10]

/-- Decimal digits of a natural number, most significant first. -/
def natToDec (n : Nat) : GoStr := natToDecAux (n + 1) n

/-- Go `fmt.Sprintf("%d", i)` for an `int64`. -/
def formatInt (i : Int) : GoStr :=
  if i < 0 then 45 :: natToDec (-i).toNat else natToDec i.toNat

/-- ASCII decimal digit? -/
def isDigitByte (c : Nat) : Bool := 48 ≤ c && c ≤ 57

/-- Numeric value of a digit string. -/
def decValue (s : GoStr) : Nat := s.foldl (fun a c => a * 10 + (c - 48)) 0

/-- Go `strconv.ParseInt(s, 10, 64)`: optional sign, nonempty run of
decimal digits, and the value must fit in a signed 64-bit integer;
`none` models a parse error. -/
def parseInt64 (s : GoStr) : Option Int :=
  match s with
  | [] => none
  | c :: rest =>
    let neg := c == 45
    let digits := if c == 45 || c == 43 then rest else s
    if digits.isEmpty then none
    else if digits.all isDigitByte then
      let m := decValue digits
      if neg then if m ≤ 2 ^ 63 then some (-(m : Int)) else none
      else if m < 2 ^ 63 then some ((m : Int)) else none
    else none

/-! ## The hancock functions -/

/-- Two's-complement wrap of Go `int64` arithmetic. -/
def wrap64 (x : Int) : Int := (x + 2 ^ 63) % 2 ^ 64 - 2 ^ 63

/-- Reserved envelope key `"apikey"`. -/
def strApikey : GoStr := asciiBytes "apikey"

/-- Reserved envelope key `"ts"`. -/
def strTs : GoStr := asciiBytes "ts"

/-- Reserved envelope key `"data"`. -/
def strData : GoStr := asciiBytes "data"

/-- `isValidTS` (identical in all revisions): parse `ts` as a base-10 signed
64-bit integer; on failure report `("invalid", false)`; otherwise compare the
two's-complement absolute difference from `now` against `expireSeconds`,
reporting reason `"expired"`.  `now - i` and the negation are Go `int64`
operations and wrap. -/
def isValidTS (now : Int) (ts : GoStr) (expireSeconds : Int) : GoStr × Bool :=
  match parseInt64 ts with
  | some i =>
    let dur := wrap64 (now - i)
    let dur' := if dur < 0 then wrap64 (dur * -1) else dur
    (asciiBytes "expired", decide (dur' ≤ expireSeconds))
  | none => (asciiBytes "invalid", false)

/-- The `Error` struct of `part_000`/`part_001`/`hancock.go`: message and
HTTP status code. -/
structure GoError where
  s : GoStr
  status : Nat
  deriving DecidableEq, Repr

/-- The shared tail of `Validate` in `part_000`/`part_001`/`part_002`
(reached by the `default` and `-1` branches of the switch): read and delete
`data`, recompute the MAC over `METHOD:Encode()`, compare, and on success
delete `apikey` and `ts`.  406/401 are `http.StatusNotAcceptable` /
`http.StatusUnauthorized`. -/
def validateMAC (method : GoStr) (v : Values) (pKey : GoStr) :
    Option Values × Option GoError :=
  let data := v.get strData
  let v' := v.del strData
  let sig := method ++ 58 :: v'.encode
  let encHash := base64urlEncode (hmacSha256 pKey sig)
  if encHash = data then (some ((v'.del strApikey).del strTs), none)
  else (none, some ⟨asciiBytes "signature mismatch `" ++ encHash ++
    asciiBytes "` != `" ++ data ++ asciiBytes "`", 401⟩)

/-- `Validate` of `part_000` (= `part_001`; `part_002` differs only in the
error payload): three-way switch on `expireSeconds` (`-1` skips the time
check, `-2` strips the envelope and returns with no security check, any
other value runs `isValidTS` on the `ts` parameter and returns a 406 error
on failure), then the MAC check.  The request is `(method, rawQuery)`;
`r.URL.Query()` is `parseQuery rawQuery`. -/
def Validate (method rawQuery pKey : GoStr) (now expireSeconds : Int) :
    Option Values × Option GoError :=
  let v := parseQuery rawQuery
  if expireSeconds = -1 then
    validateMAC method v pKey
  else if expireSeconds = -2 then
    (some (((v.del strData).del strApikey).del strTs), none)
  else
    let ts := v.get strTs
    match isValidTS now ts expireSeconds with
    | (_, true) => validateMAC method v pKey
    | (s, false) => (none, some ⟨s ++ asciiBytes " timestamp " ++ ts, 406⟩)

/-- The MAC tail of `hancock.go`'s `Validate`; its mismatch message has no
backquotes (`"signature mismatch %s != %s"`). -/
def validateMACh (method : GoStr) (v : Values) (pKey : GoStr) :
    Option Values × Option GoError :=
  let data := v.get strData
  let v' := v.del strData
  let sig := method ++ 58 :: v'.encode
  let encHash := base64urlEncode (hmacSha256 pKey sig)
  if encHash = data then (some ((v'.del strApikey).del strTs), none)
  else (none, some ⟨asciiBytes "signature mismatch " ++ encHash ++
    asciiBytes " != " ++ data, 401⟩)

/-- `Validate` of `hancock.go`: no `-2` case; any `expireSeconds > -1` runs
the timestamp check, everything else skips straight to the MAC check. -/
def Validate_hancock (method rawQuery pKey : GoStr) (now expireSeconds : Int) :
    Option Values × Option GoError :=
  let q := parseQuery rawQuery
  if expireSeconds > -1 then
    let ts := q.get strTs
    match isValidTS now ts expireSeconds with
    | (_, true) => validateMACh method q pKey
    | (s, false) => (none, some ⟨s ++ asciiBytes " timestamp " ++ ts, 406⟩)
  else validateMACh method q pKey

/-- `SignQS` of `part_000` (= `part_002`): copy the caller's map, `Add`
`apikey` and `ts`, MAC over `METHOD:Encode()` of the copy, `Add` the MAC as
`data`, and return `Encode()` of the copy.  The second component is the
caller's map after the call: the source never writes through `values`, so it
is returned unchanged. -/
def SignQS (method key pKey : GoStr) (now : Int) (values : Option Values) :
    GoStr × Option Values :=
  let v : Values := match values with | none => [] | some vs => vs
  let v := v.add strApikey key
  let v := v.add strTs (formatInt now)
  let enc := v.encode
  let sig := method ++ 58 :: enc
  let encHash := base64urlEncode (hmacSha256 pKey sig)
  let v := v.add strData encHash
  (v.encode, values)

/-- `Sign` of `part_000`/`part_001`/`part_002`: `urlStr ++ "?" ++ SignQS`. -/
def Sign (method key pKey urlStr : GoStr) (now : Int) (qs : Option Values) :
    GoStr × Option Values :=
  ((urlStr ++ 63 :: (SignQS method key pKey now qs).1), (SignQS method key pKey now qs).2)

/-- `SignQS` of `part_001`: same copying preamble, but the signature string
encodes the caller's original `qs` (`q := qs.Encode()`), not the copy with
`apikey`/`ts` added. -/
def SignQS_v1 (method key pKey : GoStr) (now : Int) (qs : Option Values) :
    GoStr × Option Values :=
  let values : Values := match qs with | none => [] | some vs => vs
  let values := values.add strApikey key
  let values := values.add strTs (formatInt now)
  let q := Values.encode (match qs with | none => [] | some vs => vs)
  let sig := method ++ 58 :: q
  let encHash := base64urlEncode (hmacSha256 pKey sig)
  let values := values.add strData encHash
  (values.encode, qs)

/-- `Sign` of `hancock.go`: `Add`s `apikey` and `ts` directly to the
caller's map `qs` (no copy; a nil `qs` is replaced by a fresh map), signs
`Encode()` of it, and returns `urlStr?query&data=hash` with the MAC appended
textually.  The second component is the caller's map after the call: when
the caller passed a map, the `Add`s above mutated it. -/
def Sign_hancock (method key pKey urlStr : GoStr) (now : Int) (qs : Option Values) :
    GoStr × Option Values :=
  let v : Values := match qs with | none => [] | some vs => vs
  let v := v.add strApikey key
  let v := v.add strTs (formatInt now)
  let q := v.encode
  let sig := method ++ 58 :: q
  let encHash := base64urlEncode (hmacSha256 pKey sig)
  (urlStr ++ 63 :: q ++ 38 :: asciiBytes "data=" ++ encHash,
   match qs with | none => none | some _ => some v)

/-- An `*http.Request` as `Validate` reads it: `(r.Method, r.URL.RawQuery)`.
Both fields are immutable Go strings and `r.URL.Query()` parses a fresh map
each call. -/
abbrev Request : Type := GoStr × GoStr

/-- `Validate` with the request's post-call state made explicit: the source
reads `r.Method` and `r.URL` but never writes through `r` (all deletions act
on the fresh map `r.URL.Query()` returns), so the request is returned
unchanged. -/
def ValidateReq (r : Request) (pKey : GoStr) (now expireSeconds : Int) :
    (Option Values × Option GoError) × Request :=
  (Validate r.1 r.2 pKey now expireSeconds, r)

/-! ## Order lemmas for `lexLt` -/

theorem lexLt_irrefl : ∀ s : GoStr, lexLt s s = false
  | [] => rfl
  | a :: as => by simp [lexLt, lexLt_irrefl as, Nat.lt_irrefl]

theorem lexLt_trans : ∀ (a b c : GoStr), lexLt a b = true → lexLt b c = true →
    lexLt a c = true
  | _, [], _, hab, _ => by simp [lexLt] at hab
  | _ :: _, _ :: _, [], _, hbc => by simp [lexLt] at hbc
  | [], _ :: _, _ :: _, _, _ => by simp [lexLt]
  | a :: as, b :: bs, c :: cs, hab, hbc => by
    simp only [lexLt, Bool.or_eq_true, Bool.and_eq_true, decide_eq_true_eq,
      beq_iff_eq] at hab hbc ⊢
    rcases hab with h1 | ⟨rfl, h1⟩
    · rcases hbc with h2 | ⟨rfl, h2⟩
      · exact Or.inl (Nat.lt_trans h1 h2)
      · exact Or.inl h1
    · rcases hbc with h2 | ⟨rfl, h2⟩
      · exact Or.inl h2
      · exact Or.inr ⟨rfl, lexLt_trans as bs cs h1 h2⟩

theorem lexLt_asymm (a b : GoStr) (h : lexLt a b = true) : lexLt b a = false := by
  by_contra hc
  have hba : lexLt b a = true := by revert hc; cases lexLt b a <;> simp
  have := lexLt_trans a b a h hba
  simp [lexLt_irrefl] at this

theorem lexLt_ne (a b : GoStr) (h : lexLt a b = true) : a ≠ b := by
  rintro rfl
  simp [lexLt_irrefl] at h

theorem lexLt_connex : ∀ (a b : GoStr), lexLt a b = false → lexLt b a = false →
    a = b
  | [], [], _, _ => rfl
  | [], _ :: _, h, _ => by simp [lexLt] at h
  | _ :: _, [], _, h => by simp [lexLt] at h
  | a :: as, b :: bs, h1, h2 => by
    simp only [lexLt, Bool.or_eq_false_iff, Bool.and_eq_false_iff,
      decide_eq_false_iff_not, beq_eq_false_iff_ne, ne_eq] at h1 h2
    have hab : a = b := by omega
    subst hab
    rcases h1.2 with h | h
    · omega
    · rcases h2.2 with h' | h'
      · omega
      · exact congrArg (a :: ·) (lexLt_connex as bs h h')

/-! ## Association-list algebra for `Values` -/

theorem lookupVals_add_self : ∀ (v : Values) (k x), v.lookupVals k = none →
    (v.add k x).lookupVals k = some [x]
  | [], k, x, _ => by simp [Values.add, Values.lookupVals]
  | (k', vs) :: rest, k, x, h => by
    simp only [Values.lookupVals] at h
    by_cases hk : k = k'
    · simp [hk] at h
    · rw [if_neg hk] at h
      simp only [Values.add, if_neg hk]
      by_cases hlt : lexLt k k' = true
      · simp [hlt, Values.lookupVals]
      · simp only [hlt, if_false, Bool.false_eq_true, Values.lookupVals,
          if_neg hk]
        exact lookupVals_add_self rest k x h

theorem lookupVals_add_ne : ∀ (v : Values) (k k' x), k ≠ k' →
    (v.add k' x).lookupVals k = v.lookupVals k
  | [], k, k', x, h => by
    simp [Values.add, Values.lookupVals, fun hh => h hh]
  | (k0, vs) :: rest, k, k', x, h => by
    simp only [Values.add]
    by_cases h0 : k' = k0
    · subst h0
      simp [Values.lookupVals, h]
    · rw [if_neg h0]
      by_cases hlt : lexLt k' k0 = true
      · simp [hlt, Values.lookupVals, fun hh => h hh]
      · simp only [hlt, if_false, Bool.false_eq_true, Values.lookupVals]
        by_cases hk0 : k = k0
        · simp [hk0]
        · simp [hk0, lookupVals_add_ne rest k k' x h]

theorem del_of_lookupVals_none : ∀ (v : Values) (k), v.lookupVals k = none →
    v.del k = v
  | [], k, _ => rfl
  | (k', vs) :: rest, k, h => by
    simp only [Values.lookupVals] at h
    by_cases hk : k = k'
    · simp [hk] at h
    · rw [if_neg hk] at h
      simp only [Values.del, if_neg (fun hh : k' = k => hk hh.symm)]
      rw [del_of_lookupVals_none rest k h]

theorem del_add_self : ∀ (v : Values) (k x), (v.add k x).del k = v.del k
  | [], k, x => by simp [Values.add, Values.del]
  | (k', vs) :: rest, k, x => by
    simp only [Values.add]
    by_cases hk : k = k'
    · subst hk
      simp [Values.del]
    · rw [if_neg hk]
      by_cases hlt : lexLt k k' = true
      · simp [hlt, Values.del, fun hh : k' = k => hk hh.symm]
      · simp only [hlt, if_false, Bool.false_eq_true, Values.del,
          if_neg (fun hh : k' = k => hk hh.symm)]
        rw [del_add_self rest k x]

theorem allGt_lt (k k' : GoStr) (hlt : lexLt k k' = true) :
    ∀ v : Values, allGt k' v = true → allGt k v = true := by
  intro v h
  simp only [allGt, List.all_eq_true] at h ⊢
  exact fun p hp => lexLt_trans _ _ _ hlt (h p hp)

theorem allGt_del (k k' : GoStr) : ∀ v : Values, allGt k v = true →
    allGt k (v.del k') = true
  | [], _ => rfl
  | (k0, vs) :: rest, h => by
    simp only [allGt, List.all_cons, Bool.and_eq_true] at h
    by_cases h0 : k0 = k'
    · simpa [Values.del, h0, allGt] using allGt_del k k' rest h.2
    · have := allGt_del k k' rest h.2
      simp only [allGt, List.all_eq_true] at this ⊢
      simp only [Values.del, if_neg h0]
      intro p hp
      rcases List.mem_cons.mp hp with rfl | hp'
      · exact h.1
      · exact this p hp'

theorem add_front : ∀ (v : Values) (k x), allGt k v = true →
    v.add k x = (k, [x]) :: v
  | [], _, _, _ => rfl
  | (k0, vs) :: rest, k, x, h => by
    have h1 : lexLt k k0 = true := by
      simp only [allGt, List.all_cons, Bool.and_eq_true] at h
      exact h.1
    simp [Values.add, lexLt_ne _ _ h1, h1]

theorem del_add_ne : ∀ (v : Values) (k k' x), keysSortedB v = true → k ≠ k' →
    (v.add k x).del k' = (v.del k').add k x
  | [], k, k', x, _, h => by
    simp [Values.add, Values.del, fun hh : k = k' => h hh]
  | (k0, vs) :: rest, k, k', x, hs, h => by
    have hs' : allGt k0 rest = true ∧ keysSortedB rest = true := by
      simpa [keysSortedB, Bool.and_eq_true] using hs
    simp only [Values.add]
    by_cases hk : k = k0
    · subst hk
      simp only [if_pos rfl, Values.del, if_neg (fun hh : k = k' => h hh)]
      simp [Values.add]
    · rw [if_neg hk]
      by_cases hlt : lexLt k k0 = true
      · by_cases h0 : k0 = k'
        · subst h0
          rw [if_pos hlt]
          simp only [Values.del, if_neg (fun hh : k = k0 => hk hh), if_pos rfl]
          exact (add_front _ _ _
            (allGt_del k k0 rest (allGt_lt k k0 hlt rest hs'.1))).symm
        · simp [Values.del, hlt, h0, Values.add, fun hh : k = k' => h hh, hk]
      · simp only [hlt, if_false, Bool.false_eq_true, Values.del]
        by_cases h0 : k0 = k'
        · subst h0
          simp [del_add_ne rest k k0 x hs'.2 h]
        · simp [h0, Values.add, hk, hlt, del_add_ne rest k k' x hs'.2 h]

theorem wf_cons {k : GoStr} {vs : List GoStr} {rest : Values} :
    Values.wf ((k, vs) :: rest) = true ↔
      allGt k rest = true ∧ bytesOk k = true ∧ vs ≠ [] ∧
        vs.all bytesOk = true ∧ Values.wf rest = true := by
  have hne : ((!vs.isEmpty) = true) ↔ vs ≠ [] := by cases vs <;> simp
  simp only [Values.wf, keysSortedB, List.all_cons, Bool.and_eq_true, hne]
  tauto

theorem allGt_add (k0 k x : GoStr) (hlt : lexLt k0 k = true) :
    ∀ v : Values, allGt k0 v = true → allGt k0 (v.add k x) = true
  | [], _ => by simp [Values.add, allGt, hlt]
  | (k1, vs) :: rest, h => by
    simp only [allGt, List.all_cons, Bool.and_eq_true] at h
    simp only [Values.add]
    by_cases hk : k = k1
    · rw [if_pos hk]
      simp only [allGt, List.all_cons, Bool.and_eq_true]
      exact ⟨h.1, h.2⟩
    · rw [if_neg hk]
      by_cases hl : lexLt k k1 = true
      · rw [if_pos hl]
        simp only [allGt, List.all_cons, Bool.and_eq_true]
        exact ⟨hlt, h.1, h.2⟩
      · rw [if_neg hl]
        simp only [allGt, List.all_cons, Bool.and_eq_true]
        refine ⟨h.1, ?_⟩
        have := allGt_add k0 k x hlt rest (by simpa [allGt] using h.2)
        simpa [allGt] using this

theorem wf_add (k x : GoStr) (hk : bytesOk k = true) (hx : bytesOk x = true) :
    ∀ v : Values, v.wf = true → (v.add k x).wf = true
  | [], _ => by
    simp [Values.add, Values.wf, keysSortedB, allGt, List.all_cons, hk, hx]
  | (k0, vs) :: rest, h => by
    rcases wf_cons.mp h with ⟨h1, h2, h3, h4, h5⟩
    simp only [Values.add]
    by_cases hkk : k = k0
    · subst hkk
      rw [if_pos rfl]
      refine wf_cons.mpr ⟨h1, h2, ?_, ?_, h5⟩
      · simp
      · simp only [List.all_append, Bool.and_eq_true]
        exact ⟨h4, by simp [hx]⟩
    · rw [if_neg hkk]
      by_cases hl : lexLt k k0 = true
      · rw [if_pos hl]
        refine wf_cons.mpr ⟨?_, hk, ?_, ?_, h⟩
        · simp only [allGt, List.all_cons, Bool.and_eq_true]
          refine ⟨hl, ?_⟩
          simpa [allGt] using allGt_lt k k0 hl rest h1
        · simp
        · simp [hx]
      · rw [if_neg hl]
        have hlt0 : lexLt k0 k = true := by
          by_contra hc
          have hf : lexLt k0 k = false := by revert hc; cases lexLt k0 k <;> simp
          have hl' : lexLt k k0 = false := by revert hl; cases lexLt k k0 <;> simp
          exact hkk (lexLt_connex k k0 hl' hf)
        exact wf_cons.mpr ⟨allGt_add k0 k x hlt0 rest h1, h2, h3, h4,
          wf_add k x hk hx rest h5⟩

/-! ## Percent-escaping lemmas -/

theorem hexUpper_range (n : Nat) (h : n ≤ 15) :
    (48 ≤ hexUpper n ∧ hexUpper n ≤ 57) ∨ (65 ≤ hexUpper n ∧ hexUpper n ≤ 70) := by
  unfold hexUpper
  split <;> omega

theorem hexVal_hexUpper (n : Nat) (h : n ≤ 15) : hexVal (hexUpper n) = some n := by
  by_cases h10 : n < 10
  · have h1 : (48 ≤ 48 + n && 48 + n ≤ 57) = true := by
      simp only [Bool.and_eq_true, decide_eq_true_eq]; omega
    simp only [hexUpper, if_pos h10, hexVal, h1, if_true]
    congr 1
    omega
  · have h1 : (48 ≤ 55 + n && 55 + n ≤ 57) = false := by
      simp only [Bool.and_eq_false_iff, decide_eq_false_iff_not]; omega
    have h2 : (97 ≤ 55 + n && 55 + n ≤ 102) = false := by
      simp only [Bool.and_eq_false_iff, decide_eq_false_iff_not]; omega
    have h3 : (65 ≤ 55 + n && 55 + n ≤ 70) = true := by
      simp only [Bool.and_eq_true, decide_eq_true_eq]; omega
    simp only [hexUpper, if_neg h10, hexVal, h1, h2, h3, Bool.false_eq_true,
      if_false, if_true]
    congr 1
    omega

/-- The one-byte escape of `c`, as emitted by `queryEscape`. -/
def escByte (c : Nat) : GoStr :=
  if isUnreservedByte c then [c]
  else if c == 32 then [43]
  else [37, hexUpper (c / 16), hexUpper (c % 16)]

theorem queryEscape_eq : ∀ s : GoStr, queryEscape s = s.foldr (fun c acc => escByte c ++ acc) []
  | [] => rfl
  | c :: rest => by simp [queryEscape, escByte, queryEscape_eq rest]

theorem not_mem_escByte (b c : Nat) (hc : c < 256)
    (hb1 : isUnreservedByte b = false) (hb2 : b ≠ 43) (hb3 : b ≠ 37)
    (hb4 : ¬(48 ≤ b ∧ b ≤ 57)) (hb5 : ¬(65 ≤ b ∧ b ≤ 70)) :
    b ∉ escByte c := by
  unfold escByte
  by_cases hu : isUnreservedByte c = true
  · rw [if_pos hu]
    intro hmem
    rcases List.mem_singleton.mp hmem with rfl
    rw [hu] at hb1
    cases hb1
  · rw [if_neg (by simpa using hu)]
    by_cases hsp : c = 32
    · subst hsp
      rw [if_pos (show ((32 : Nat) == 32) = true from rfl)]
      intro hmem
      rcases List.mem_singleton.mp hmem with rfl
      exact hb2 rfl
    · rw [if_neg (show ¬((c == 32) = true) from by simpa using hsp)]
      intro hmem
      have hdiv : c / 16 ≤ 15 := by omega
      have hmod : c % 16 ≤ 15 := by omega
      rcases hmem with _ | ⟨_, hmem⟩
      · exact hb3 rfl
      rcases hmem with _ | ⟨_, hmem⟩
      · rcases hexUpper_range (c / 16) hdiv with h | h
        · exact hb4 h
        · exact hb5 h
      rcases hmem with _ | ⟨_, hmem⟩
      · rcases hexUpper_range (c % 16) hmod with h | h
        · exact hb4 h
        · exact hb5 h
      · cases hmem

theorem not_mem_queryEscape (b : Nat)
    (hb1 : isUnreservedByte b = false) (hb2 : b ≠ 43) (hb3 : b ≠ 37)
    (hb4 : ¬(48 ≤ b ∧ b ≤ 57)) (hb5 : ¬(65 ≤ b ∧ b ≤ 70)) :
    ∀ s : GoStr, bytesOk s = true → b ∉ queryEscape s
  | [], _ => by simp [queryEscape]
  | c :: rest, h => by
    have hc : c < 256 ∧ bytesOk rest = true := by
      simpa [bytesOk, List.all_cons, Bool.and_eq_true, decide_eq_true_eq] using h
    have ih := not_mem_queryEscape b hb1 hb2 hb3 hb4 hb5 rest hc.2
    have hhd := not_mem_escByte b c hc.1 hb1 hb2 hb3 hb4 hb5
    rw [queryEscape_eq, List.foldr_cons, ← queryEscape_eq rest]
    intro hmem
    rcases List.mem_append.mp hmem with hmem | hmem
    · exact hhd hmem
    · exact ih hmem

theorem queryUnescape_queryEscape : ∀ s : GoStr, bytesOk s = true →
    queryUnescape (queryEscape s) = some s
  | [], _ => by simp [queryEscape, queryUnescape]
  | c :: rest, h => by
    have hc : c < 256 ∧ bytesOk rest = true := by
      simpa [bytesOk, List.all_cons, Bool.and_eq_true, decide_eq_true_eq] using h
    have ih := queryUnescape_queryEscape rest hc.2
    simp only [queryEscape]
    by_cases hu : isUnreservedByte c = true
    · rw [if_pos hu]
      have hc37 : c ≠ 37 := by
        intro hh
        subst hh
        simp [isUnreservedByte] at hu
      have hc43 : c ≠ 43 := by
        intro hh
        subst hh
        simp [isUnreservedByte] at hu
      rw [queryUnescape.eq_def]
      simp [hc37, hc43, ih]
    · rw [if_neg (by simpa using hu)]
      by_cases hsp : c = 32
      · subst hsp
        rw [if_pos (show ((32 : Nat) == 32) = true from rfl)]
        rw [queryUnescape.eq_def]
        simp [ih]
      · rw [if_neg (show ¬((c == 32) = true) from by simpa using hsp)]
        have hdiv : c / 16 ≤ 15 := by omega
        have hmod : c % 16 ≤ 15 := by omega
        have hrec : 16 * (c / 16) + c % 16 = c := by omega
        simp [queryUnescape, hexVal_hexUpper _ hdiv, hexVal_hexUpper _ hmod, ih, hrec]

theorem not_mem_queryEscape38 (s : GoStr) (h : bytesOk s = true) :
    38 ∉ queryEscape s :=
  not_mem_queryEscape 38 (by decide) (by decide) (by decide) (by decide)
    (by decide) s h

theorem not_mem_queryEscape59 (s : GoStr) (h : bytesOk s = true) :
    59 ∉ queryEscape s :=
  not_mem_queryEscape 59 (by decide) (by decide) (by decide) (by decide)
    (by decide) s h

theorem not_mem_queryEscape61 (s : GoStr) (h : bytesOk s = true) :
    61 ∉ queryEscape s :=
  not_mem_queryEscape 61 (by decide) (by decide) (by decide) (by decide)
    (by decide) s h

/-! ## Splitting and cutting lemmas -/

theorem splitOnByte_cons (b c : Nat) (rest : GoStr) :
    splitOnByte b (c :: rest) =
      match splitOnByte b rest with
      | [] => [[]]
      | s :: ss => if c = b then [] :: s :: ss else (c :: s) :: ss := rfl

theorem splitOnByte_ne_nil (b : Nat) : ∀ l : GoStr, splitOnByte b l ≠ []
  | [] => by simp [splitOnByte]
  | c :: rest => by
    rw [splitOnByte_cons]
    rcases hsp : splitOnByte b rest with _ | ⟨s, ss⟩
    · simp
    · by_cases hc : c = b <;> simp [hc]

theorem splitOnByte_of_not_mem (b : Nat) : ∀ l : GoStr, b ∉ l →
    splitOnByte b l = [l]
  | [], _ => by simp [splitOnByte]
  | c :: rest, h => by
    have h1 : c ≠ b := fun hh => h (by simp [hh])
    have h2 : b ∉ rest := fun hh => h (by simp [hh])
    rw [splitOnByte_cons, splitOnByte_of_not_mem b rest h2]
    simp [h1]

theorem splitOnByte_append (b : Nat) : ∀ l1 l2 : GoStr, b ∉ l1 →
    splitOnByte b (l1 ++ b :: l2) = l1 :: splitOnByte b l2
  | [], l2, _ => by
    rw [List.nil_append, splitOnByte_cons]
    rcases hsp : splitOnByte b l2 with _ | ⟨s, ss⟩
    · exact absurd hsp (splitOnByte_ne_nil b l2)
    · simp
  | c :: l1, l2, h => by
    have h1 : c ≠ b := fun hh => h (by simp [hh])
    have h2 : b ∉ l1 := fun hh => h (by simp [hh])
    rw [List.cons_append, splitOnByte_cons,
      splitOnByte_append b l1 l2 h2]
    simp [h1]

theorem cutByte_append (b : Nat) : ∀ l1 l2 : GoStr, b ∉ l1 →
    cutByte b (l1 ++ b :: l2) = (l1, l2)
  | [], l2, _ => by simp [cutByte]
  | c :: l1, l2, h => by
    have h1 : c ≠ b := fun hh => h (by simp [hh])
    have h2 : b ∉ l1 := fun hh => h (by simp [hh])
    simp [cutByte, h1, cutByte_append b l1 l2 h2]

theorem containsByte_eq_false {b : Nat} {s : GoStr} (h : b ∉ s) :
    containsByte b s = false := by
  simp only [containsByte, List.any_eq_false]
  intro x hx
  intro hh
  exact h (beq_iff_eq.mp hh ▸ hx)

/-! ## `Values.encode` as a flat list of `key=value` segments -/

/-- The `key=value` segments `Values.encode` emits, in order, one per stored
value (proof-side restatement of the fold in `Values.encode`). -/
def encPairs (v : Values) : List GoStr :=
  v.foldr
    (fun p acc =>
      p.2.map (fun x => queryEscape p.1 ++ 61 :: queryEscape x) ++ acc)
    []

/-- The key-indexed fold inside `Values.encode`. -/
def foldSegs (w : Values) (keys : List GoStr) : List GoStr :=
  keys.foldr
    (fun k acc =>
      ((w.lookupVals k).getD []).map (fun x => queryEscape k ++ 61 :: queryEscape x)
        ++ acc)
    []

theorem encode_foldSegs (v : Values) :
    v.encode = joinAmp (foldSegs v (sortStrings (v.map Prod.fst))) := rfl

theorem insertStr_front (k : GoStr) (l : List GoStr)
    (h : ∀ x ∈ l, lexLt k x = true) : insertStr k l = k :: l := by
  cases l with
  | nil => rfl
  | cons x xs =>
    have := lexLt_asymm k x (h x (by simp))
    simp [insertStr, this]

theorem sortStrings_of_sorted : ∀ v : Values, keysSortedB v = true →
    sortStrings (v.map Prod.fst) = v.map Prod.fst
  | [], _ => rfl
  | (k, vs) :: rest, h => by
    have h' : allGt k rest = true ∧ keysSortedB rest = true := by
      simpa [keysSortedB, Bool.and_eq_true] using h
    show insertStr k (sortStrings (rest.map Prod.fst)) = _
    rw [sortStrings_of_sorted rest h'.2, List.map_cons]
    exact insertStr_front k _ (fun x hx => by
      rcases List.mem_map.mp hx with ⟨p, hp, rfl⟩
      exact List.all_eq_true.mp h'.1 p hp)

theorem foldSegs_cons_skip (k0 : GoStr) (vs0 : List GoStr) (rest : Values)
    (hall : allGt k0 rest = true) : ∀ keys : List GoStr,
    (∀ k ∈ keys, k ∈ rest.map Prod.fst) →
    foldSegs ((k0, vs0) :: rest) keys = foldSegs rest keys
  | [], _ => rfl
  | k :: ks, h => by
    have hk : k ∈ rest.map Prod.fst := h k (by simp)
    have hlt : lexLt k0 k = true := by
      rcases List.mem_map.mp hk with ⟨p, hp, rfl⟩
      exact List.all_eq_true.mp hall p hp
    have hne : k ≠ k0 := (lexLt_ne k0 k hlt).symm
    have ih := foldSegs_cons_skip k0 vs0 rest hall ks
      (fun k' hk' => h k' (by simp [hk']))
    simp only [foldSegs, List.foldr_cons, Values.lookupVals, if_neg hne]
    exact congrArg _ ih

theorem foldSegs_self : ∀ v : Values, keysSortedB v = true →
    foldSegs v (v.map Prod.fst) = encPairs v
  | [], _ => rfl
  | (k0, vs0) :: rest, h => by
    have h' : allGt k0 rest = true ∧ keysSortedB rest = true := by
      simpa [keysSortedB, Bool.and_eq_true] using h
    simp only [List.map_cons, foldSegs, List.foldr_cons, Values.lookupVals,
      if_pos rfl, Option.getD_some, encPairs]
    refine congrArg _ ?_
    have hskip := foldSegs_cons_skip k0 vs0 rest h'.1 (rest.map Prod.fst)
      (fun k hk => hk)
    have hself := foldSegs_self rest h'.2
    calc (rest.map Prod.fst).foldr
          (fun k acc =>
            ((Values.lookupVals ((k0, vs0) :: rest) k).getD []).map
              (fun x => queryEscape k ++ 61 :: queryEscape x) ++ acc) []
        = foldSegs ((k0, vs0) :: rest) (rest.map Prod.fst) := by
          simp [foldSegs, Values.lookupVals]
      _ = foldSegs rest (rest.map Prod.fst) := hskip
      _ = encPairs rest := hself

theorem encode_eq_encPairs (v : Values) (h : v.wf = true) :
    v.encode = joinAmp (encPairs v) := by
  have hs : keysSortedB v = true := by
    have := h
    simp only [Values.wf, Bool.and_eq_true] at this
    exact this.1
  rw [encode_foldSegs, sortStrings_of_sorted v hs, foldSegs_self v hs]

/-! ## Parsing an encoded query rebuilds the map -/

theorem joinAmp_cons_cons (p q : GoStr) (qs : List GoStr) :
    joinAmp (p :: q :: qs) = p ++ 38 :: joinAmp (q :: qs) := rfl

theorem splitOnByte_joinAmp : ∀ segs : List GoStr, segs ≠ [] →
    (∀ s ∈ segs, (38 : Nat) ∉ s) → splitOnByte 38 (joinAmp segs) = segs
  | [], h, _ => absurd rfl h
  | [s], _, h => splitOnByte_of_not_mem 38 s (h s (by simp))
  | s :: s2 :: rest, _, h => by
    rw [joinAmp_cons_cons, splitOnByte_append 38 s _ (h s (by simp)),
      splitOnByte_joinAmp (s2 :: rest) (by simp)
        (fun t ht => h t (by simp [ht]))]

theorem parseStep_seg (m : Values) (k x : GoStr) (hk : bytesOk k = true)
    (hx : bytesOk x = true) :
    parseStep m (queryEscape k ++ 61 :: queryEscape x) = m.add k x := by
  have h59 : containsByte 59 (queryEscape k ++ 61 :: queryEscape x) = false := by
    apply containsByte_eq_false
    intro hmem
    rcases List.mem_append.mp hmem with hm | hm
    · exact not_mem_queryEscape59 k hk hm
    · rcases List.mem_cons.mp hm with h61 | hm
      · exact absurd h61 (by decide)
      · exact not_mem_queryEscape59 x hx hm
  have hcut : cutByte 61 (queryEscape k ++ 61 :: queryEscape x) =
      (queryEscape k, queryEscape x) :=
    cutByte_append 61 _ _ (not_mem_queryEscape61 k hk)
  have hne : queryEscape k ++ 61 :: queryEscape x ≠ [] := by simp
  simp only [parseStep, h59, Bool.false_eq_true, if_false, if_neg hne, hcut,
    queryUnescape_queryEscape k hk, queryUnescape_queryEscape x hx]

theorem add_append_new (k x : GoStr) : ∀ m : Values,
    (∀ p ∈ m, lexLt p.1 k = true) → m.add k x = m ++ [(k, [x])]
  | [], _ => rfl
  | (k0, vs0) :: m, h => by
    have h0 : lexLt k0 k = true := h (k0, vs0) (by simp)
    have hne : k ≠ k0 := (lexLt_ne k0 k h0).symm
    have hnlt : lexLt k k0 = false := lexLt_asymm k0 k h0
    simp only [Values.add, if_neg hne, hnlt, Bool.false_eq_true, if_false,
      List.cons_append]
    rw [add_append_new k x m (fun p hp => h p (by simp [hp]))]

theorem add_append_last (k x : GoStr) (vs : List GoStr) : ∀ m : Values,
    (∀ p ∈ m, lexLt p.1 k = true) →
    (m ++ [(k, vs)]).add k x = m ++ [(k, vs ++ [x])]
  | [], _ => by simp [Values.add]
  | (k0, vs0) :: m, h => by
    have h0 : lexLt k0 k = true := h (k0, vs0) (by simp)
    have hne : k ≠ k0 := (lexLt_ne k0 k h0).symm
    have hnlt : lexLt k k0 = false := lexLt_asymm k0 k h0
    simp only [List.cons_append, Values.add, if_neg hne, hnlt,
      Bool.false_eq_true, if_false, List.append_eq]
    rw [add_append_last k x vs m (fun p hp => h p (by simp [hp]))]

theorem foldl_parseStep_vals (k : GoStr) (hk : bytesOk k = true) :
    ∀ (xs : List GoStr) (m : Values) (vs : List GoStr),
      (∀ x ∈ xs, bytesOk x = true) →
      (∀ p ∈ m, lexLt p.1 k = true) →
      (xs.map (fun x => queryEscape k ++ 61 :: queryEscape x)).foldl parseStep
        (m ++ [(k, vs)]) = m ++ [(k, vs ++ xs)]
  | [], m, vs, _, _ => by simp
  | x :: xs, m, vs, hxs, hm => by
    rw [List.map_cons, List.foldl_cons, parseStep_seg _ k x hk (hxs x (by simp)),
      add_append_last k x vs m hm,
      foldl_parseStep_vals k hk xs m (vs ++ [x])
        (fun t ht => hxs t (by simp [ht])) hm]
    simp

theorem encPairs_cons (k : GoStr) (vs : List GoStr) (rest : Values) :
    encPairs ((k, vs) :: rest) =
      vs.map (fun x => queryEscape k ++ 61 :: queryEscape x) ++ encPairs rest := rfl

theorem encPairs_no38 : ∀ v : Values, v.wf = true →
    ∀ s ∈ encPairs v, (38 : Nat) ∉ s
  | [], _ => by simp [encPairs]
  | (k, vs) :: rest, h => by
    rcases wf_cons.mp h with ⟨h1, h2, h3, h4, h5⟩
    intro s hs
    rw [encPairs_cons] at hs
    rcases List.mem_append.mp hs with hm | hm
    · rcases List.mem_map.mp hm with ⟨x, hx, rfl⟩
      intro hmem
      rcases List.mem_append.mp hmem with hm' | hm'
      · exact not_mem_queryEscape38 k h2 hm'
      · rcases List.mem_cons.mp hm' with he | hm'
        · exact absurd he (by decide)
        · exact not_mem_queryEscape38 x (List.all_eq_true.mp h4 x hx) hm'
    · exact encPairs_no38 rest h5 s hm

theorem encPairs_eq_nil : ∀ v : Values, v.wf = true → encPairs v = [] → v = []
  | [], _, _ => rfl
  | (k, vs) :: rest, h, hE => by
    rcases wf_cons.mp h with ⟨_, _, h3, _, _⟩
    rw [encPairs_cons] at hE
    rcases List.append_eq_nil.mp hE with ⟨hE1, _⟩
    exact absurd (List.map_eq_nil_iff.mp hE1) h3

theorem foldl_parseStep_encPairs : ∀ (v m : Values), v.wf = true →
    (∀ p ∈ m, ∀ q ∈ v, lexLt p.1 q.1 = true) →
    (encPairs v).foldl parseStep m = m ++ v
  | [], m, _, _ => by simp [encPairs]
  | (k, vs) :: rest, m, h, hm => by
    rcases wf_cons.mp h with ⟨h1, h2, h3, h4, h5⟩
    have hmk : ∀ p ∈ m, lexLt p.1 k = true :=
      fun p hp => hm p hp (k, vs) (by simp)
    rcases hvs : vs with _ | ⟨x, xs⟩
    · exact absurd hvs h3
    subst hvs
    rw [encPairs_cons, List.foldl_append, List.map_cons, List.foldl_cons,
      parseStep_seg m k x h2 (List.all_eq_true.mp h4 x (by simp)),
      add_append_new k x m hmk,
      foldl_parseStep_vals k h2 xs m [x]
        (fun t ht => List.all_eq_true.mp h4 t (by simp [ht])) hmk]
    have hm' : ∀ p ∈ m ++ [(k, x :: xs)], ∀ q ∈ rest, lexLt p.1 q.1 = true := by
      intro p hp q hq
      rcases List.mem_append.mp hp with hp' | hp'
      · exact hm p hp' q (by simp [hq])
      · rcases List.mem_singleton.mp hp' with rfl
        exact List.all_eq_true.mp h1 q hq
    rw [show ([x] ++ xs : List GoStr) = x :: xs from rfl,
      foldl_parseStep_encPairs rest (m ++ [(k, x :: xs)]) h5 hm']
    simp

theorem parseQuery_encode (v : Values) (h : v.wf = true) :
    parseQuery (v.encode) = v := by
  rw [encode_eq_encPairs v h]
  have hsegs : ∀ s ∈ encPairs v, (38 : Nat) ∉ s := encPairs_no38 v h
  rcases hE : encPairs v with _ | ⟨s, segs⟩
  · rw [encPairs_eq_nil v h hE]
    rfl
  · show (splitOnByte 38 (joinAmp (s :: segs))).foldl parseStep [] = v
    rw [splitOnByte_joinAmp (s :: segs) (by simp)
      (fun t ht => hsegs t (hE ▸ ht)), ← hE]
    exact foldl_parseStep_encPairs v [] h (by simp)

/-! ## Decimal formatting round-trips through parsing -/

theorem natToDecAux_spec : ∀ (fuel n : Nat), n < fuel →
    (natToDecAux fuel n).all isDigitByte = true ∧ natToDecAux fuel n ≠ [] ∧
      decValue (natToDecAux fuel n) = n
  | 0, n, h => absurd h (by omega)
  | fuel + 1, n, h => by
    by_cases h10 : n < 10
    · refine ⟨?_, ?_, ?_⟩
      · simp only [natToDecAux, if_pos h10, List.all_cons, List.all_nil,
          Bool.and_true, isDigitByte, Bool.and_eq_true, decide_eq_true_eq]
        omega
      · simp [natToDecAux, if_pos h10]
      · simp only [natToDecAux, if_pos h10, decValue, List.foldl_cons,
          List.foldl_nil]
        omega
    · have hpos : 0 < n := by omega
      have hlt : n / 10 < fuel := by
        have := Nat.div_lt_self hpos (by omega : 1 < 10)
        omega
      obtain ⟨ih1, ih2, ih3⟩ := natToDecAux_spec fuel (n / 10) hlt
      rw [natToDecAux, if_neg h10]
      refine ⟨?_, ?_, ?_⟩
      · simp only [List.all_append, Bool.and_eq_true, List.all_cons,
          List.all_nil, Bool.and_true, isDigitByte, decide_eq_true_eq]
        exact ⟨ih1, by omega⟩
      · simp
      · simp only [decValue, List.foldl_append, List.foldl_cons, List.foldl_nil]
        have : (natToDecAux fuel (n / 10)).foldl
            (fun a c => a * 10 + (c - 48)) 0 = n / 10 := ih3
        rw [this]
        omega

theorem natToDec_spec (n : Nat) :
    (natToDec n).all isDigitByte = true ∧ natToDec n ≠ [] ∧
      decValue (natToDec n) = n :=
  natToDecAux_spec (n + 1) n (by omega)

theorem bytesOk_of_digits {s : GoStr} (h : s.all isDigitByte = true) :
    bytesOk s = true := by
  simp only [bytesOk, List.all_eq_true, decide_eq_true_eq]
  intro c hc
  have := List.all_eq_true.mp h c hc
  simp only [isDigitByte, Bool.and_eq_true, decide_eq_true_eq] at this
  omega

theorem bytesOk_formatInt (i : Int) : bytesOk (formatInt i) = true := by
  unfold formatInt
  by_cases hneg : i < 0
  · rw [if_pos hneg]
    have := (natToDec_spec (-i).toNat).1
    simp only [bytesOk, List.all_cons, Bool.and_eq_true, decide_eq_true_eq]
    exact ⟨by omega, by simpa [bytesOk] using bytesOk_of_digits this⟩
  · rw [if_neg hneg]
    exact bytesOk_of_digits (natToDec_spec i.toNat).1

theorem parseInt64_formatInt (i : Int) (h1 : -(2 ^ 63) ≤ i) (h2 : i < 2 ^ 63) :
    parseInt64 (formatInt i) = some i := by
  by_cases hneg : i < 0
  · obtain ⟨hd, hne, hv⟩ := natToDec_spec (-i).toNat
    rw [formatInt, if_pos hneg]
    have hie : (natToDec (-i).toNat).isEmpty = false := by
      rcases hE : natToDec (-i).toNat with _ | ⟨c, cs⟩
      · exact absurd hE hne
      · rfl
    simp only [parseInt64, beq_self_eq_true, Bool.true_or, if_true, hie,
      Bool.false_eq_true, if_false, hd, if_true, hv]
    have hle : (-i).toNat ≤ 2 ^ 63 := by omega
    rw [if_pos hle]
    have : (((-i).toNat : Int)) = -i := Int.toNat_of_nonneg (by omega)
    rw [this]
    simp
  · obtain ⟨hd, hne, hv⟩ := natToDec_spec i.toNat
    rw [formatInt, if_neg hneg]
    rcases hE : natToDec i.toNat with _ | ⟨c, cs⟩
    · exact absurd hE hne
    have hcd : isDigitByte c = true := by
      have := List.all_eq_true.mp (hE ▸ hd) c (by simp)
      exact this
    have hc48 : 48 ≤ c ∧ c ≤ 57 := by
      simpa [isDigitByte, Bool.and_eq_true, decide_eq_true_eq] using hcd
    have hne45 : (c == 45) = false := by
      simp only [beq_eq_false_iff_ne, ne_eq]
      omega
    have hne43 : (c == 43) = false := by
      simp only [beq_eq_false_iff_ne, ne_eq]
      omega
    simp only [parseInt64, hne45, hne43, Bool.or_self, Bool.false_eq_true,
      if_false, List.isEmpty_cons, hE ▸ hd, if_true, hE ▸ hv]
    have hlt : i.toNat < 2 ^ 63 := by omega
    rw [if_pos hlt]
    have : ((i.toNat : Int)) = i := Int.toNat_of_nonneg (by omega)
    rw [this]

/-! ## `wrap64` and the timestamp check -/

theorem wrap64_of_bounds (x : Int) (h1 : -(2 ^ 63) ≤ x) (h2 : x < 2 ^ 63) :
    wrap64 x = x := by
  unfold wrap64
  omega

/-- In the non-overflowing range the check is exactly the absolute
difference, with reason `"expired"`. -/
theorem isValidTS_no_overflow (now : Int) (ts : GoStr) (e i : Int)
    (hp : parseInt64 ts = some i)
    (hd1 : -(2 ^ 63) < now - i) (hd2 : now - i < 2 ^ 63) :
    isValidTS now ts e =
      (asciiBytes "expired", decide ((if now - i < 0 then i - now else now - i) ≤ e)) := by
  unfold isValidTS
  rw [hp]
  have hw : wrap64 (now - i) = now - i := wrap64_of_bounds _ (by omega) hd2
  simp only [hw]
  by_cases hneg : now - i < 0
  · rw [if_pos hneg, if_pos hneg]
    have : (now - i) * -1 = i - now := by ring
    rw [this, wrap64_of_bounds _ (by omega) (by omega)]
  · rw [if_neg hneg, if_neg hneg]

theorem isValidTS_invalid (now : Int) (ts : GoStr) (e : Int)
    (hp : parseInt64 ts = none) :
    isValidTS now ts e = (asciiBytes "invalid", false) := by
  unfold isValidTS
  rw [hp]

/-! ## Byte-wellformedness of base64 output -/

theorem b64Char_lt (n : Nat) : b64Char n < 256 := by
  unfold b64Char
  split_ifs <;> omega

theorem bytesOk_base64urlEncode : ∀ l : GoStr, bytesOk (base64urlEncode l) = true
  | [] => rfl
  | [a] => by
    simp only [base64urlEncode, bytesOk, List.all_cons, List.all_nil,
      Bool.and_true, Bool.and_eq_true, decide_eq_true_eq]
    exact ⟨b64Char_lt _, b64Char_lt _, by omega, by omega⟩
  | [a, b] => by
    simp only [base64urlEncode, bytesOk, List.all_cons, List.all_nil,
      Bool.and_true, Bool.and_eq_true, decide_eq_true_eq]
    exact ⟨b64Char_lt _, b64Char_lt _, b64Char_lt _, by omega⟩
  | a :: b :: c :: rest => by
    have ih := bytesOk_base64urlEncode rest
    simp only [base64urlEncode, bytesOk, List.all_cons, Bool.and_eq_true,
      decide_eq_true_eq] at ih ⊢
    exact ⟨b64Char_lt _, b64Char_lt _, b64Char_lt _, b64Char_lt _, ih⟩

theorem wf_sorted {v : Values} (h : v.wf = true) : keysSortedB v = true := by
  simp only [Values.wf, Bool.and_eq_true] at h
  exact h.1

/-! ## Validation of a freshly signed query -/

theorem signQS_out (method key pKey : GoStr) (T : Int) (params : Values) :
    (SignQS method key pKey T (some params)).1 =
      (((params.add strApikey key).add strTs (formatInt T)).add strData
        (base64urlEncode (hmacSha256 pKey (method ++ 58 ::
          ((params.add strApikey key).add strTs (formatInt T)).encode)))).encode := rfl

theorem validate_signQS (method key pKey : GoStr) (params : Values) (T now W : Int)
    (hwf : params.wf = true) (hkey : bytesOk key = true)
    (h1 : params.lookupVals strApikey = none)
    (h2 : params.lookupVals strTs = none)
    (h3 : params.lookupVals strData = none)
    (hW : 0 ≤ W)
    (hT1 : -(2 ^ 63) ≤ T) (hT2 : T < 2 ^ 63)
    (hd1 : -(2 ^ 63) < now - T) (hd2 : now - T < 2 ^ 63)
    (habs1 : now - T ≤ W) (habs2 : T - now ≤ W) :
    Validate method (SignQS method key pKey T (some params)).1 pKey now W =
      (some params, none) := by
  have hwf1 : (params.add strApikey key).wf = true :=
    wf_add strApikey key (by decide) hkey params hwf
  have hwf2 : ((params.add strApikey key).add strTs (formatInt T)).wf = true :=
    wf_add strTs (formatInt T) (by decide) (bytesOk_formatInt T) _ hwf1
  have hwf3 : ((((params.add strApikey key).add strTs (formatInt T)).add strData
      (base64urlEncode (hmacSha256 pKey (method ++ 58 ::
        ((params.add strApikey key).add strTs (formatInt T)).encode))))).wf = true :=
    wf_add strData _ (by decide) (bytesOk_base64urlEncode _) _ hwf2
  have hts1 : (params.add strApikey key).lookupVals strTs = none := by
    rw [lookupVals_add_ne params strTs strApikey key (by decide)]
    exact h2
  have hts2 : ((params.add strApikey key).add strTs (formatInt T)).lookupVals strTs =
      some [formatInt T] :=
    lookupVals_add_self _ strTs _ hts1
  have hts3 : ((((params.add strApikey key).add strTs (formatInt T)).add strData
      (base64urlEncode (hmacSha256 pKey (method ++ 58 ::
        ((params.add strApikey key).add strTs (formatInt T)).encode))))).lookupVals strTs =
      some [formatInt T] := by
    rw [lookupVals_add_ne _ strTs strData _ (by decide)]
    exact hts2
  have hdata1 : (params.add strApikey key).lookupVals strData = none := by
    rw [lookupVals_add_ne params strData strApikey key (by decide)]
    exact h3
  have hdata2 : ((params.add strApikey key).add strTs (formatInt T)).lookupVals strData =
      none := by
    rw [lookupVals_add_ne _ strData strTs _ (by decide)]
    exact hdata1
  have hdata3 : ((((params.add strApikey key).add strTs (formatInt T)).add strData
      (base64urlEncode (hmacSha256 pKey (method ++ 58 ::
        ((params.add strApikey key).add strTs (formatInt T)).encode))))).lookupVals strData =
      some [base64urlEncode (hmacSha256 pKey (method ++ 58 ::
        ((params.add strApikey key).add strTs (formatInt T)).encode))] :=
    lookupVals_add_self _ strData _ hdata2
  have hvalid : isValidTS now (formatInt T) W = (asciiBytes "expired", true) := by
    rw [isValidTS_no_overflow now _ W T (parseInt64_formatInt T hT1 hT2) hd1 hd2]
    simp only [Prod.mk.injEq, true_and]
    rw [decide_eq_true_eq]
    split_ifs <;> omega
  have hdel3 : ((((params.add strApikey key).add strTs (formatInt T)).add strData
      (base64urlEncode (hmacSha256 pKey (method ++ 58 ::
        ((params.add strApikey key).add strTs (formatInt T)).encode))))).del strData =
      (params.add strApikey key).add strTs (formatInt T) := by
    rw [del_add_self _ strData _, del_of_lookupVals_none _ strData hdata2]
  have hstrip : ((((params.add strApikey key).add strTs (formatInt T)).del
      strApikey).del strTs) = params := by
    rw [del_add_ne (params.add strApikey key) strTs strApikey (formatInt T)
      (wf_sorted hwf1) (by decide)]
    rw [del_add_self params strApikey key,
      del_of_lookupVals_none params strApikey h1]
    rw [del_add_self params strTs (formatInt T),
      del_of_lookupVals_none params strTs h2]
  rw [signQS_out]
  simp only [Validate]
  rw [parseQuery_encode _ hwf3]
  rw [if_neg (by omega : ¬(W = -1)), if_neg (by omega : ¬(W = -2))]
  have hgetTs : Values.get ((((params.add strApikey key).add strTs (formatInt T)).add
      strData (base64urlEncode (hmacSha256 pKey (method ++ 58 ::
        ((params.add strApikey key).add strTs (formatInt T)).encode))))) strTs =
      formatInt T := by
    simp [Values.get, hts3]
  rw [hgetTs, hvalid]
  show validateMAC method _ pKey = (some params, none)
  simp only [validateMAC]
  have hgetData : Values.get ((((params.add strApikey key).add strTs (formatInt T)).add
      strData (base64urlEncode (hmacSha256 pKey (method ++ 58 ::
        ((params.add strApikey key).add strTs (formatInt T)).encode))))) strData =
      base64urlEncode (hmacSha256 pKey (method ++ 58 ::
        ((params.add strApikey key).add strTs (formatInt T)).encode)) := by
    simp [Values.get, hdata3]
  rw [hgetData, hdel3, if_pos rfl, hstrip]

/-! ## Further lookup lemmas and case equations for `Validate` -/

theorem lookupVals_mem : ∀ (v : Values) (k : GoStr) (vs : List GoStr),
    v.lookupVals k = some vs → k ∈ v.map Prod.fst
  | [], _, _, h => by simp [Values.lookupVals] at h
  | (k0, vs0) :: rest, k, vs, h => by
    simp only [Values.lookupVals] at h
    by_cases hk : k = k0
    · simp [hk]
    · rw [if_neg hk] at h
      simp only [List.map_cons, List.mem_cons]
      exact Or.inr (lookupVals_mem rest k vs h)

theorem lookupVals_add_some : ∀ (v : Values) (k x : GoStr) (vs : List GoStr),
    keysSortedB v = true → v.lookupVals k = some vs →
    (v.add k x).lookupVals k = some (vs ++ [x])
  | [], _, _, _, _, h => by simp [Values.lookupVals] at h
  | (k0, vs0) :: rest, k, x, vs, hs, h => by
    have hs' : allGt k0 rest = true ∧ keysSortedB rest = true := by
      simpa [keysSortedB, Bool.and_eq_true] using hs
    simp only [Values.lookupVals] at h
    by_cases hk : k = k0
    · rw [if_pos hk] at h
      rcases Option.some.injEq .. ▸ h with rfl
      simp [Values.add, hk, Values.lookupVals]
    · rw [if_neg hk] at h
      have hmem : k ∈ rest.map Prod.fst := lookupVals_mem rest k vs h
      have hlt : lexLt k0 k = true := by
        rcases List.mem_map.mp hmem with ⟨p, hp, rfl⟩
        exact List.all_eq_true.mp hs'.1 p hp
      have hnlt : lexLt k k0 = false := lexLt_asymm k0 k hlt
      simp only [Values.add, if_neg hk, hnlt, Bool.false_eq_true, if_false,
        Values.lookupVals]
      exact lookupVals_add_some rest k x vs hs'.2 h

theorem isValidTS_fst (now : Int) (ts : GoStr) (e : Int) :
    (isValidTS now ts e).1 = asciiBytes "expired" ∨
      (isValidTS now ts e).1 = asciiBytes "invalid" := by
  unfold isValidTS
  rcases parseInt64 ts with _ | i
  · exact Or.inr rfl
  · exact Or.inl rfl

theorem Validate_neg1 (m raw k : GoStr) (now : Int) :
    Validate m raw k now (-1) = validateMAC m (parseQuery raw) k := by
  simp [Validate]

theorem Validate_neg2 (m raw k : GoStr) (now : Int) :
    Validate m raw k now (-2) =
      (some ((((parseQuery raw).del strData).del strApikey).del strTs), none) := by
  norm_num [Validate]

theorem Validate_cases (m raw k : GoStr) (now e : Int) (he1 : e ≠ -1)
    (he2 : e ≠ -2) :
    Validate m raw k now e =
      (match isValidTS now ((parseQuery raw).get strTs) e with
       | (_, true) => validateMAC m (parseQuery raw) k
       | (s, false) =>
         (none, some ⟨s ++ asciiBytes " timestamp " ++ (parseQuery raw).get strTs,
           406⟩)) := by
  simp only [Validate, if_neg he1, if_neg he2]

theorem validateMAC_eq (m : GoStr) (v : Values) (k : GoStr) :
    validateMAC m v k =
      if base64urlEncode (hmacSha256 k (m ++ 58 :: (v.del strData).encode)) =
          v.get strData
      then (some (((v.del strData).del strApikey).del strTs), none)
      else (none, some ⟨asciiBytes "signature mismatch `" ++
        base64urlEncode (hmacSha256 k (m ++ 58 :: (v.del strData).encode)) ++
        asciiBytes "` != `" ++ v.get strData ++ asciiBytes "`", 401⟩) := rfl

/-- Validating a signed query whose transported `data` value was replaced by
any other byte string fails with the 401 signature-mismatch error. -/
theorem validate_data_tamper (method key pKey d' : GoStr) (params : Values)
    (T now W : Int)
    (hwf : params.wf = true) (hkey : bytesOk key = true)
    (h1 : params.lookupVals strApikey = none)
    (h2 : params.lookupVals strTs = none)
    (h3 : params.lookupVals strData = none)
    (hd' : bytesOk d' = true)
    (hne : d' ≠ base64urlEncode (hmacSha256 pKey (method ++ 58 ::
      ((params.add strApikey key).add strTs (formatInt T)).encode)))
    (hT1 : -(2 ^ 63) ≤ T) (hT2 : T < 2 ^ 63)
    (hWok : W = -1 ∨ (0 ≤ W ∧ -(2 ^ 63) < now - T ∧ now - T < 2 ^ 63 ∧
      now - T ≤ W ∧ T - now ≤ W)) :
    Validate method
      (((params.add strApikey key).add strTs (formatInt T)).add strData d').encode
      pKey now W =
      (none, some ⟨asciiBytes "signature mismatch `" ++
        base64urlEncode (hmacSha256 pKey (method ++ 58 ::
          ((params.add strApikey key).add strTs (formatInt T)).encode)) ++
        asciiBytes "` != `" ++ d' ++ asciiBytes "`", 401⟩) := by
  have hwf1 : (params.add strApikey key).wf = true :=
    wf_add strApikey key (by decide) hkey params hwf
  have hwf2 : ((params.add strApikey key).add strTs (formatInt T)).wf = true :=
    wf_add strTs (formatInt T) (by decide) (bytesOk_formatInt T) _ hwf1
  have hwf3 : (((params.add strApikey key).add strTs (formatInt T)).add strData
      d').wf = true :=
    wf_add strData d' (by decide) hd' _ hwf2
  have hts1 : (params.add strApikey key).lookupVals strTs = none := by
    rw [lookupVals_add_ne params strTs strApikey key (by decide)]
    exact h2
  have hts2 : ((params.add strApikey key).add strTs (formatInt T)).lookupVals strTs =
      some [formatInt T] :=
    lookupVals_add_self _ strTs _ hts1
  have hts3 : ((((params.add strApikey key).add strTs (formatInt T)).add strData
      d')).lookupVals strTs = some [formatInt T] := by
    rw [lookupVals_add_ne _ strTs strData _ (by decide)]
    exact hts2
  have hdata1 : (params.add strApikey key).lookupVals strData = none := by
    rw [lookupVals_add_ne params strData strApikey key (by decide)]
    exact h3
  have hdata2 : ((params.add strApikey key).add strTs (formatInt T)).lookupVals
      strData = none := by
    rw [lookupVals_add_ne _ strData strTs _ (by decide)]
    exact hdata1
  have hdata3 : ((((params.add strApikey key).add strTs (formatInt T)).add strData
      d')).lookupVals strData = some [d'] :=
    lookupVals_add_self _ strData _ hdata2
  have hgetData : Values.get (((params.add strApikey key).add strTs
      (formatInt T)).add strData d') strData = d' := by
    simp [Values.get, hdata3]
  have hdel3 : (((params.add strApikey key).add strTs (formatInt T)).add strData
      d').del strData = (params.add strApikey key).add strTs (formatInt T) := by
    rw [del_add_self _ strData _, del_of_lookupVals_none _ strData hdata2]
  have hmacr : validateMAC method (((params.add strApikey key).add strTs
      (formatInt T)).add strData d') pKey =
      (none, some ⟨asciiBytes "signature mismatch `" ++
        base64urlEncode (hmacSha256 pKey (method ++ 58 ::
          ((params.add strApikey key).add strTs (formatInt T)).encode)) ++
        asciiBytes "` != `" ++ d' ++ asciiBytes "`", 401⟩) := by
    rw [validateMAC_eq, hdel3, hgetData, if_neg (fun hh => hne hh.symm)]
  rcases hWok with rfl | ⟨hW, hd1, hd2, habs1, habs2⟩
  · rw [Validate_neg1, parseQuery_encode _ hwf3, hmacr]
  · rw [Validate_cases method _ pKey now W (by omega) (by omega),
      parseQuery_encode _ hwf3]
    have hgetTs : Values.get (((params.add strApikey key).add strTs
        (formatInt T)).add strData d') strTs = formatInt T := by
      simp [Values.get, hts3]
    rw [hgetTs]
    rw [isValidTS_no_overflow now _ W T (parseInt64_formatInt T hT1 hT2) hd1 hd2]
    have habs : (if now - T < 0 then T - now else now - T) ≤ W := by
      split_ifs <;> omega
    rw [decide_eq_true habs]
    exact hmacr

theorem validateMAC_err (m : GoStr) (v : Values) (k : GoStr) (err : GoError)
    (h : (validateMAC m v k).2 = some err) :
    err.status = 401 ∧ err.s = asciiBytes "signature mismatch `" ++
      base64urlEncode (hmacSha256 k (m ++ 58 :: (v.del strData).encode)) ++
      asciiBytes "` != `" ++ v.get strData ++ asciiBytes "`" := by
  rw [validateMAC_eq] at h
  by_cases hc : base64urlEncode (hmacSha256 k (m ++ 58 :: (v.del strData).encode)) =
      v.get strData
  · rw [if_pos hc] at h
    exact absurd h (by simp)
  · rw [if_neg hc] at h
    injection h with h2
    subst h2
    exact ⟨rfl, rfl⟩

theorem validateMAC_ok (m : GoStr) (v : Values) (k : GoStr) (res : Values)
    (h : (validateMAC m v k).1 = some res) :
    res = ((v.del strData).del strApikey).del strTs := by
  rw [validateMAC_eq] at h
  by_cases hc : base64urlEncode (hmacSha256 k (m ++ 58 :: (v.del strData).encode)) =
      v.get strData
  · rw [if_pos hc] at h
    injection h with h2
    exact h2.symm
  · rw [if_neg hc] at h
    exact absurd h (by simp)

theorem signQS_data_mem (method key pKey : GoStr) (params : Values) (T : Int)
    (hwf : params.wf = true) (hkey : bytesOk key = true) :
    base64urlEncode (hmacSha256 pKey (method ++ 58 ::
      ((params.add strApikey key).add strTs (formatInt T)).encode)) ∈
      (parseQuery (SignQS method key pKey T (some params)).1).getAll strData := by
  have hwf1 : (params.add strApikey key).wf = true :=
    wf_add strApikey key (by decide) hkey params hwf
  have hwf2 : ((params.add strApikey key).add strTs (formatInt T)).wf = true :=
    wf_add strTs (formatInt T) (by decide) (bytesOk_formatInt T) _ hwf1
  have hwf3 : (((params.add strApikey key).add strTs (formatInt T)).add strData
      (base64urlEncode (hmacSha256 pKey (method ++ 58 ::
        ((params.add strApikey key).add strTs (formatInt T)).encode)))).wf = true :=
    wf_add strData _ (by decide) (bytesOk_base64urlEncode _) _ hwf2
  rw [signQS_out, parseQuery_encode _ hwf3]
  rcases hdl : ((params.add strApikey key).add strTs (formatInt T)).lookupVals
    strData with _ | vs
  · have := lookupVals_add_self _ strData (base64urlEncode (hmacSha256 pKey
      (method ++ 58 :: ((params.add strApikey key).add strTs (formatInt T)).encode)))
      hdl
    simp [Values.getAll, this]
  · have := lookupVals_add_some _ strData (base64urlEncode (hmacSha256 pKey
      (method ++ 58 :: ((params.add strApikey key).add strTs (formatInt T)).encode)))
      vs (wf_sorted hwf2) hdl
    simp [Values.getAll, this]

theorem signQS_data_unique (method key pKey : GoStr) (params : Values) (T : Int)
    (hwf : params.wf = true) (hkey : bytesOk key = true)
    (h3 : params.lookupVals strData = none) :
    (parseQuery (SignQS method key pKey T (some params)).1).getAll strData =
      [base64urlEncode (hmacSha256 pKey (method ++ 58 ::
        ((params.add strApikey key).add strTs (formatInt T)).encode))] := by
  have hwf1 : (params.add strApikey key).wf = true :=
    wf_add strApikey key (by decide) hkey params hwf
  have hwf2 : ((params.add strApikey key).add strTs (formatInt T)).wf = true :=
    wf_add strTs (formatInt T) (by decide) (bytesOk_formatInt T) _ hwf1
  have hwf3 : (((params.add strApikey key).add strTs (formatInt T)).add strData
      (base64urlEncode (hmacSha256 pKey (method ++ 58 ::
        ((params.add strApikey key).add strTs (formatInt T)).encode)))).wf = true :=
    wf_add strData _ (by decide) (bytesOk_base64urlEncode _) _ hwf2
  have hdata1 : (params.add strApikey key).lookupVals strData = none := by
    rw [lookupVals_add_ne params strData strApikey key (by decide)]
    exact h3
  have hdata2 : ((params.add strApikey key).add strTs (formatInt T)).lookupVals
      strData = none := by
    rw [lookupVals_add_ne _ strData strTs _ (by decide)]
    exact hdata1
  rw [signQS_out, parseQuery_encode _ hwf3]
  have := lookupVals_add_self _ strData (base64urlEncode (hmacSha256 pKey
    (method ++ 58 :: ((params.add strApikey key).add strTs (formatInt T)).encode)))
    hdata2
  simp [Values.getAll, this]

/-! ## Concrete example inputs used by witnesses and counterexamples -/

/-- Example method `"GET"`. -/
def exGET : GoStr := asciiBytes "GET"

/-- Example public key `"pub1"`. -/
def exPub : GoStr := asciiBytes "pub1"

/-- Example secret key `"s3cr3t"`. -/
def exSecret : GoStr := asciiBytes "s3cr3t"

/-- Example business parameters `{"foo": ["bar"]}`. -/
def exParams : Values := [(asciiBytes "foo", [asciiBytes "bar"])]

/-- Example signing time (Unix seconds). -/
def exT : Int := 1700000000

/-- The MAC of the example request, as the scheme computes it. -/
def exMac : GoStr :=
  base64urlEncode (hmacSha256 exSecret
    (asciiBytes "GET:apikey=pub1&foo=bar&ts=1700000000"))

/-- The signed query string of the example request, as a literal. -/
def exSignedRaw : GoStr :=
  asciiBytes
    "apikey=pub1&data=uvjXS-oziFmOVAt4cXzshE4wjiLVrRuiHjCZh4y6jpA%3D&foo=bar&ts=1700000000"

/- Staging equations: each pins a signing pipeline's output to a literal byte
string, so that later evaluations start from literals. -/

theorem signQS_ex_out :
    (SignQS exGET exPub exSecret exT (some exParams)).1 = exSignedRaw := by decide

theorem signQSv1_ex_out :
    (SignQS_v1 exGET exPub exSecret exT (some exParams)).1 =
      asciiBytes
        "apikey=pub1&data=55Ez3yhFMT8agy5uwiwbNKk-m7x0z8YjFJoj0pEH22E%3D&foo=bar&ts=1700000000" := by
  decide

theorem signQS_dataParam_out :
    (SignQS exGET exPub exSecret exT (some [(asciiBytes "data", [asciiBytes "x"])])).1 =
      asciiBytes
        "apikey=pub1&data=x&data=HfbzUOg9N5vEq_rmILEkvqu-qbN1hMlTNSwkxXFVVW4%3D&ts=1700000000" := by
  decide

theorem signHancock_ex_out :
    (Sign_hancock exGET exPub exSecret (asciiBytes "http://api") exT
      (some exParams)).1 =
      asciiBytes
        "http://api?apikey=pub1&foo=bar&ts=1700000000&data=uvjXS-oziFmOVAt4cXzshE4wjiLVrRuiHjCZh4y6jpA=" := by
  decide

theorem overflow_ex_out :
    (((Values.add [] strApikey exPub).add strTs
        (asciiBytes "-9223372035154775808")).add strData
      (base64urlEncode (hmacSha256 exSecret (exGET ++ 58 ::
        ((Values.add [] strApikey exPub).add strTs
          (asciiBytes "-9223372035154775808")).encode)))).encode =
      asciiBytes
        "apikey=pub1&data=yNVWe6cZpDYPM4YyaBmtEs_p8SIBJRBc2EqygExOfvo%3D&ts=-9223372035154775808" := by
  decide

/-! ## The claims -/

/-- C1 (amended): for parameter sets that are well-formed byte strings and
contain none of the envelope keys `apikey`/`ts`/`data`, validating a request
whose query string was produced by `SignQS` (part_000/part_002), with the
same secret key and any window `W ≥ 0` containing the signing time, succeeds
and returns exactly the original parameters; the `part_001` revision of
`SignQS` computes the MAC over the parameters without the envelope fields,
so its output fails validation with a 401 signature mismatch even under the
signing conditions. -/
theorem C1_roundtrip :
    (∀ (method key pKey : GoStr) (params : Values) (T now W : Int),
      params.wf = true → bytesOk key = true →
      params.lookupVals strApikey = none →
      params.lookupVals strTs = none →
      params.lookupVals strData = none →
      0 ≤ W → -(2 ^ 63) ≤ T → T < 2 ^ 63 →
      -(2 ^ 63) < now - T → now - T < 2 ^ 63 →
      now - T ≤ W → T - now ≤ W →
      Validate method (SignQS method key pKey T (some params)).1 pKey now W =
        (some params, none)) ∧
    ((Validate exGET (SignQS_v1 exGET exPub exSecret exT (some exParams)).1
        exSecret exT 60).1 = none ∧
      (Validate exGET (SignQS_v1 exGET exPub exSecret exT (some exParams)).1
        exSecret exT 60).2.map GoError.status = some 401) := by
  refine ⟨fun method key pKey params T now W h1 h2 h3 h4 h5 h6 h7 h8 h9 h10
      h11 h12 =>
    validate_signQS method key pKey params T now W h1 h2 h3 h4 h5 h6 h7 h8 h9
      h10 h11 h12, ?_⟩
  rw [signQSv1_ex_out]
  decide

/-- C1 witness: the round trip at the concrete example inputs. -/
theorem C1_roundtrip_witness :
    Validate exGET (SignQS exGET exPub exSecret exT (some exParams)).1 exSecret
      1700000030 60 = (some exParams, none) :=
  C1_roundtrip.1 exGET exPub exSecret exParams exT 1700000030 60 (by decide)
    (by decide) (by decide) (by decide) (by decide) (by decide) (by decide)
    (by decide) (by decide) (by decide) (by decide) (by decide)

/-- C1 counterexample: the claim as stated quantifies over every parameter
set, but a caller parameter named `data` collides with the envelope: the
signed request then fails validation (401) instead of round-tripping. -/
theorem C1_roundtrip_counterexample :
    Validate exGET (SignQS exGET exPub exSecret exT
        (some [(asciiBytes "data", [asciiBytes "x"])])).1 exSecret exT 60 ≠
      (some [(asciiBytes "data", [asciiBytes "x"])], none) ∧
    (Validate exGET (SignQS exGET exPub exSecret exT
        (some [(asciiBytes "data", [asciiBytes "x"])])).1 exSecret exT
      60).2.map GoError.status = some 401 := by
  rw [signQS_dataParam_out]
  decide

/-- C2: the signed query string carries a `data` value equal to
base64url(HMAC-SHA256(secret, method ++ ":" ++ E)), where `E` is the sorted
percent-encoded query encoding of the parameters plus `apikey` and `ts`
(stated generally as membership among the parsed `data` values, which is the
single such value whenever the caller's parameters avoid the reserved keys);
at the concrete scenario the full output and every parsed field are exactly
as the claim lists them, for `SignQS` and for the query part of
`hancock.go`'s `Sign`. -/
theorem C2_data_field :
    (∀ (method key pKey : GoStr) (params : Values) (T : Int),
      params.wf = true → bytesOk key = true →
      base64urlEncode (hmacSha256 pKey (method ++ 58 ::
        ((params.add strApikey key).add strTs (formatInt T)).encode)) ∈
        (parseQuery (SignQS method key pKey T (some params)).1).getAll strData) ∧
    (∀ (method key pKey : GoStr) (params : Values) (T : Int),
      params.wf = true → bytesOk key = true →
      params.lookupVals strData = none →
      (parseQuery (SignQS method key pKey T (some params)).1).getAll strData =
        [base64urlEncode (hmacSha256 pKey (method ++ 58 ::
          ((params.add strApikey key).add strTs (formatInt T)).encode))]) ∧
    (SignQS exGET exPub exSecret exT (some exParams)).1 =
      asciiBytes
        "apikey=pub1&data=uvjXS-oziFmOVAt4cXzshE4wjiLVrRuiHjCZh4y6jpA%3D&foo=bar&ts=1700000000" ∧
    (parseQuery (SignQS exGET exPub exSecret exT (some exParams)).1).get strData =
      exMac ∧
    (parseQuery (SignQS exGET exPub exSecret exT (some exParams)).1).get
      (asciiBytes "foo") = asciiBytes "bar" ∧
    (parseQuery (SignQS exGET exPub exSecret exT (some exParams)).1).get
      strApikey = exPub ∧
    (parseQuery (SignQS exGET exPub exSecret exT (some exParams)).1).get strTs =
      asciiBytes "1700000000" ∧
    (parseQuery ((Sign_hancock exGET exPub exSecret (asciiBytes "http://api") exT
        (some exParams)).1.drop ((asciiBytes "http://api").length + 1))).get
      strData = exMac := by
  refine ⟨fun method key pKey params T h1 h2 =>
    signQS_data_mem method key pKey params T h1 h2,
    fun method key pKey params T h1 h2 h3 =>
    signQS_data_unique method key pKey params T h1 h2 h3,
    signQS_ex_out, ?_, ?_, ?_, ?_, ?_⟩
  · rw [signQS_ex_out]
    decide
  · rw [signQS_ex_out]
    decide
  · rw [signQS_ex_out]
    decide
  · rw [signQS_ex_out]
    decide
  · rw [signHancock_ex_out]
    decide

/-- C2 witness: the general data-field form instantiated at the example. -/
theorem C2_data_field_witness :
    base64urlEncode (hmacSha256 exSecret (exGET ++ 58 ::
      ((exParams.add strApikey exPub).add strTs (formatInt exT)).encode)) ∈
      (parseQuery (SignQS exGET exPub exSecret exT (some exParams)).1).getAll
        strData :=
  C2_data_field.1 exGET exPub exSecret exParams exT (by decide) (by decide)

/-- C3 (amended): the check parses `ts` as a base-10 signed 64-bit integer
and reports `("invalid", false)` on parse failure; when `now - ts` does not
overflow a 64-bit integer the reason is `"expired"` and the check passes
exactly when `|now - ts| ≤ W`; a timestamp exactly `W` seconds old passes and
one `W + 1` seconds old fails (concrete boundary); and `Validate` with window
`-1` skips the check entirely, going straight to the MAC comparison.  (When
`now - ts` overflows, the Go `int64` arithmetic wraps and the code's answer
can differ from the mathematical `|now - ts| ≤ W` — see the counterexample.) -/
theorem C3_freshness :
    (∀ (now : Int) (ts : GoStr) (e : Int), parseInt64 ts = none →
      isValidTS now ts e = (asciiBytes "invalid", false)) ∧
    (∀ (now e i : Int) (ts : GoStr), parseInt64 ts = some i →
      -(2 ^ 63) < now - i → now - i < 2 ^ 63 →
      (isValidTS now ts e).1 = asciiBytes "expired" ∧
        ((isValidTS now ts e).2 = true ↔ now - i ≤ e ∧ i - now ≤ e)) ∧
    (isValidTS 1700000000 (asciiBytes "1699999940") 60 =
      (asciiBytes "expired", true) ∧
     isValidTS 1700000000 (asciiBytes "1699999939") 60 =
      (asciiBytes "expired", false)) ∧
    (∀ (method raw pKey : GoStr) (now : Int),
      Validate method raw pKey now (-1) = validateMAC method (parseQuery raw) pKey) := by
  refine ⟨fun now ts e hp => isValidTS_invalid now ts e hp, ?_, by decide,
    fun method raw pKey now => Validate_neg1 method raw pKey now⟩
  intro now e i ts hp hb1 hb2
  rw [isValidTS_no_overflow now ts e i hp hb1 hb2]
  refine ⟨rfl, ?_⟩
  rw [decide_eq_true_eq]
  split_ifs <;> omega

/-- C3 witness: the two general branches instantiated concretely. -/
theorem C3_freshness_witness :
    isValidTS 1700000000 (asciiBytes "notanumber") 60 =
      (asciiBytes "invalid", false) ∧
    ((isValidTS 1700000000 (asciiBytes "1699999941") 60).2 = true ↔
      ((1700000000 : Int) - 1699999941 ≤ 60 ∧
        (1699999941 : Int) - 1700000000 ≤ 60)) :=
  ⟨C3_freshness.1 1700000000 (asciiBytes "notanumber") 60 (by decide),
   (C3_freshness.2.1 1700000000 60 1699999941 (asciiBytes "1699999941")
     (by decide) (by decide) (by decide)).2⟩

/-- C3 counterexample: for `ts = now - 2^63` the Go `int64` subtraction and
negation wrap to `-2^63`, which is `≤ W`, so the code accepts a timestamp
whose true distance from `now` is `2^63` seconds — the claimed equivalence
with `|now - ts| ≤ W` fails. -/
theorem C3_freshness_counterexample :
    isValidTS 1700000000 (asciiBytes "-9223372035154775808") 60 =
      (asciiBytes "expired", true) ∧
    parseInt64 (asciiBytes "-9223372035154775808") =
      some (-9223372035154775808) ∧
    ¬((1700000000 : Int) - (-9223372035154775808) ≤ 60) := by decide

/-- C4 (amended): in the revisions that implement the bypass sentinel
(part_000/part_001/part_002), `Validate` with `expireSeconds = -2` performs
no MAC and no timestamp check, strips `data`, `apikey` and `ts`, and returns
the remaining parameters with no error; the `hancock.go` revision has no
`-2` case — there `-2` merely skips the timestamp check (like `-1`) and the
MAC is still verified. -/
theorem C4_bypass :
    (∀ (method raw pKey : GoStr) (now : Int),
      Validate method raw pKey now (-2) =
        (some ((((parseQuery raw).del strData).del strApikey).del strTs), none)) ∧
    (∀ (method raw pKey : GoStr) (now : Int),
      Validate_hancock method raw pKey now (-2) =
        Validate_hancock method raw pKey now (-1)) := by
  constructor
  · exact fun method raw pKey now => Validate_neg2 method raw pKey now
  · intro method raw pKey now
    simp only [Validate_hancock]
    rw [if_neg (show ¬((-2 : Int) > -1) by norm_num),
      if_neg (show ¬((-1 : Int) > -1) by norm_num)]

/-- C4 counterexample: the claim, stated over every cited `Validate`, fails
on `hancock.go`: with `expireSeconds = -2` and a wrong MAC its `Validate`
returns a 401 error instead of the stripped parameters. -/
theorem C4_bypass_counterexample :
    (Validate_hancock exGET
      (asciiBytes "apikey=pub1&data=WRONG&foo=bar&ts=1700000000") exSecret
      1700000000 (-2)).1 = none ∧
    (Validate_hancock exGET
      (asciiBytes "apikey=pub1&data=WRONG&foo=bar&ts=1700000000") exSecret
      1700000000 (-2)).2.map GoError.status = some 401 := by decide

/-- C5 (amended): replacing the transported `data` value of a signed request
with any other byte string makes `Validate` fail with the 401
signature-mismatch error, for window `-1` and for any window containing the
timestamp (first conjunct, fully general); changing the HTTP method or a
parameter value changes the canonical string and fails with 401 at the
concrete instance (second and third conjuncts); tampering with the `ts`
parameter can instead fail the freshness check with the 406 timestamp error
— see the counterexample. -/
theorem C5_tamper :
    (∀ (method key pKey d' : GoStr) (params : Values) (T now W : Int),
      params.wf = true → bytesOk key = true →
      params.lookupVals strApikey = none →
      params.lookupVals strTs = none →
      params.lookupVals strData = none →
      bytesOk d' = true →
      d' ≠ base64urlEncode (hmacSha256 pKey (method ++ 58 ::
        ((params.add strApikey key).add strTs (formatInt T)).encode)) →
      -(2 ^ 63) ≤ T → T < 2 ^ 63 →
      (W = -1 ∨ (0 ≤ W ∧ -(2 ^ 63) < now - T ∧ now - T < 2 ^ 63 ∧
        now - T ≤ W ∧ T - now ≤ W)) →
      Validate method
        (((params.add strApikey key).add strTs (formatInt T)).add strData
          d').encode pKey now W =
        (none, some ⟨asciiBytes "signature mismatch `" ++
          base64urlEncode (hmacSha256 pKey (method ++ 58 ::
            ((params.add strApikey key).add strTs (formatInt T)).encode)) ++
          asciiBytes "` != `" ++ d' ++ asciiBytes "`", 401⟩)) ∧
    ((Validate (asciiBytes "POST") (SignQS exGET exPub exSecret exT
        (some exParams)).1 exSecret exT (-1)).1 = none ∧
     (Validate (asciiBytes "POST") (SignQS exGET exPub exSecret exT
        (some exParams)).1 exSecret exT (-1)).2.map GoError.status = some 401) ∧
    ((Validate exGET (asciiBytes
        "apikey=pub1&data=uvjXS-oziFmOVAt4cXzshE4wjiLVrRuiHjCZh4y6jpA%3D&foo=baz&ts=1700000000")
        exSecret exT (-1)).1 = none ∧
     (Validate exGET (asciiBytes
        "apikey=pub1&data=uvjXS-oziFmOVAt4cXzshE4wjiLVrRuiHjCZh4y6jpA%3D&foo=baz&ts=1700000000")
        exSecret exT (-1)).2.map GoError.status = some 401) := by
  refine ⟨fun method key pKey d' params T now W h1 h2 h3 h4 h5 h6 h7 h8 h9 h10 =>
    validate_data_tamper method key pKey d' params T now W h1 h2 h3 h4 h5 h6 h7
      h8 h9 h10, ?_, by decide⟩
  rw [signQS_ex_out]
  decide

/-- C5 witness: a concrete data-field tamper rejected with the exact 401
mismatch error. -/
theorem C5_tamper_witness :
    Validate exGET
      (((exParams.add strApikey exPub).add strTs (formatInt exT)).add strData
        (asciiBytes "AAAA")).encode exSecret 1700000030 60 =
      (none, some ⟨asciiBytes "signature mismatch `" ++
        base64urlEncode (hmacSha256 exSecret (exGET ++ 58 ::
          ((exParams.add strApikey exPub).add strTs (formatInt exT)).encode)) ++
        asciiBytes "` != `" ++ asciiBytes "AAAA" ++ asciiBytes "`", 401⟩) :=
  C5_tamper.1 exGET exPub exSecret (asciiBytes "AAAA") exParams exT 1700000030
    60 (by decide) (by decide) (by decide) (by decide) (by decide) (by decide)
    (by decide) (by decide) (by decide)
    (Or.inr ⟨by decide, by decide, by decide, by decide, by decide⟩)

/-- C5 counterexample: changing the `ts` parameter of a signed request (with
window 0) makes `Validate` fail with the 406 timestamp error, not the
signature-mismatch error the claim requires. -/
theorem C5_tamper_counterexample :
    (Validate exGET (asciiBytes
        "apikey=pub1&data=uvjXS-oziFmOVAt4cXzshE4wjiLVrRuiHjCZh4y6jpA%3D&foo=bar&ts=1699999999")
        exSecret 1700000000 0).1 = none ∧
    (Validate exGET (asciiBytes
        "apikey=pub1&data=uvjXS-oziFmOVAt4cXzshE4wjiLVrRuiHjCZh4y6jpA%3D&foo=bar&ts=1699999999")
        exSecret 1700000000 0).2.map GoError.status = some 406 := by decide

/-- C6: every error `Validate` returns is either the 406 timestamp error,
whose message is the reason (`"expired"` or `"invalid"`) followed by
`" timestamp "` and the raw `ts` value, or the 401 signature-mismatch error,
whose message embeds the recomputed and the transported MAC values; there
are no other error outcomes. -/
theorem C6_error_classification :
    ∀ (method raw pKey : GoStr) (now e : Int) (err : GoError),
      (Validate method raw pKey now e).2 = some err →
      (err.status = 406 ∧
        (err.s = asciiBytes "expired" ++ asciiBytes " timestamp " ++
            (parseQuery raw).get strTs ∨
         err.s = asciiBytes "invalid" ++ asciiBytes " timestamp " ++
            (parseQuery raw).get strTs)) ∨
      (err.status = 401 ∧
        err.s = asciiBytes "signature mismatch `" ++
          base64urlEncode (hmacSha256 pKey (method ++ 58 ::
            ((parseQuery raw).del strData).encode)) ++
          asciiBytes "` != `" ++ (parseQuery raw).get strData ++
          asciiBytes "`") := by
  intro method raw pKey now e err h
  by_cases he1 : e = -1
  · subst he1
    rw [Validate_neg1] at h
    exact Or.inr (validateMAC_err _ _ _ _ h)
  by_cases he2 : e = -2
  · subst he2
    rw [Validate_neg2] at h
    exact absurd h (by simp)
  · rw [Validate_cases method raw pKey now e he1 he2] at h
    rcases hts : isValidTS now ((parseQuery raw).get strTs) e with ⟨s, b⟩
    rw [hts] at h
    cases b
    · injection h with h2
      subst h2
      refine Or.inl ⟨rfl, ?_⟩
      rcases isValidTS_fst now ((parseQuery raw).get strTs) e with hf | hf <;>
        rw [hts] at hf
      · exact Or.inl (by rw [show s = asciiBytes "expired" from hf])
      · exact Or.inr (by rw [show s = asciiBytes "invalid" from hf])
    · exact Or.inr (validateMAC_err _ _ _ _ h)

/-- C6 witness: a request with no `ts` parameter produces the 406 error with
reason `"invalid"`. -/
theorem C6_error_classification_witness :
    ((⟨asciiBytes "invalid timestamp ", 406⟩ : GoError).status = 406 ∧
      ((⟨asciiBytes "invalid timestamp ", 406⟩ : GoError).s =
          asciiBytes "expired" ++ asciiBytes " timestamp " ++
            (parseQuery []).get strTs ∨
       (⟨asciiBytes "invalid timestamp ", 406⟩ : GoError).s =
          asciiBytes "invalid" ++ asciiBytes " timestamp " ++
            (parseQuery []).get strTs)) ∨
    ((⟨asciiBytes "invalid timestamp ", 406⟩ : GoError).status = 401 ∧
      (⟨asciiBytes "invalid timestamp ", 406⟩ : GoError).s =
        asciiBytes "signature mismatch `" ++
          base64urlEncode (hmacSha256 exSecret (exGET ++ 58 ::
            ((parseQuery []).del strData).encode)) ++
          asciiBytes "` != `" ++ (parseQuery []).get strData ++
          asciiBytes "`") :=
  C6_error_classification exGET [] exSecret 5 0
    ⟨asciiBytes "invalid timestamp ", 406⟩ (by decide)

/-- C7 (amended): `SignQS` and `Sign` of part_000/part_001/part_002 copy the
caller's parameter set and leave it unchanged; `hancock.go`'s `Sign` instead
mutates the caller's map, adding the `apikey` and `ts` entries to it. -/
theorem C7_sign_mutation :
    (∀ (method key pKey : GoStr) (T : Int) (values : Option Values),
      (SignQS method key pKey T values).2 = values) ∧
    (∀ (method key pKey urlStr : GoStr) (T : Int) (qs : Option Values),
      (Sign method key pKey urlStr T qs).2 = qs) ∧
    (∀ (method key pKey : GoStr) (T : Int) (qs : Option Values),
      (SignQS_v1 method key pKey T qs).2 = qs) ∧
    (∀ (method key pKey urlStr : GoStr) (T : Int) (qs : Values),
      (Sign_hancock method key pKey urlStr T (some qs)).2 =
        some ((qs.add strApikey key).add strTs (formatInt T))) :=
  ⟨fun _ _ _ _ _ => rfl, fun _ _ _ _ _ _ => rfl, fun _ _ _ _ _ => rfl,
   fun _ _ _ _ _ _ => rfl⟩

/-- C7 counterexample: after `hancock.go`'s `Sign` returns, the caller's
parameter set is no longer `{"foo": ["bar"]}` — the envelope entries were
added to it in place. -/
theorem C7_sign_mutation_counterexample :
    (Sign_hancock exGET exPub exSecret (asciiBytes "http://api") exT
      (some exParams)).2 ≠ some exParams := by decide

/-- C8: `Validate` never mutates the request — the request after the call is
the request before it — and any successfully returned parameter set is the
freshly parsed copy of the query string with the three envelope fields
deleted. -/
theorem C8_validate_no_mutation :
    ∀ (r : Request) (pKey : GoStr) (now e : Int),
      (ValidateReq r pKey now e).2 = r ∧
      (∀ v, (ValidateReq r pKey now e).1.1 = some v →
        v = (((parseQuery r.2).del strData).del strApikey).del strTs) := by
  intro r pKey now e
  refine ⟨rfl, ?_⟩
  intro v h
  by_cases he1 : e = -1
  · subst he1
    rw [show (ValidateReq r pKey now (-1)).1 = Validate r.1 r.2 pKey now (-1)
      from rfl, Validate_neg1] at h
    exact validateMAC_ok _ _ _ _ h
  by_cases he2 : e = -2
  · subst he2
    rw [show (ValidateReq r pKey now (-2)).1 = Validate r.1 r.2 pKey now (-2)
      from rfl, Validate_neg2] at h
    injection h with h2
    exact h2.symm
  · rw [show (ValidateReq r pKey now e).1 = Validate r.1 r.2 pKey now e
      from rfl, Validate_cases r.1 r.2 pKey now e he1 he2] at h
    rcases hts : isValidTS now ((parseQuery r.2).get strTs) e with ⟨s, b⟩
    rw [hts] at h
    cases b
    · exact absurd h (by simp)
    · exact validateMAC_ok _ _ _ _ h

/-- C8 witness: at a concrete request, the request is unchanged and the
returned parameters are the stripped parse. -/
theorem C8_validate_no_mutation_witness :
    (ValidateReq (exGET, []) exSecret 5 (-2)).2 = (exGET, []) ∧
    ([] : Values) = (((parseQuery []).del strData).del strApikey).del strTs :=
  ⟨(C8_validate_no_mutation (exGET, []) exSecret 5 (-2)).1,
   (C8_validate_no_mutation (exGET, []) exSecret 5 (-2)).2 [] (by decide)⟩

/-- C9 (amended): a negative window other than `-1`/`-2` rejects with the
406 timestamp error whenever the parsed timestamp's distance from `now` does
not overflow a 64-bit integer (in particular for every unparsable `ts`);
when `now - ts` wraps to exactly `-2^63` the freshness check passes even
against a negative window and a correctly signed request validates fully —
see the counterexample. -/
theorem C9_negative_window :
    ∀ (method raw pKey : GoStr) (now e : Int),
      e < 0 → e ≠ -1 → e ≠ -2 →
      (∀ i : Int, parseInt64 ((parseQuery raw).get strTs) = some i →
        -(2 ^ 63) < now - i ∧ now - i < 2 ^ 63) →
      (Validate method raw pKey now e).1 = none ∧
        (Validate method raw pKey now e).2.map GoError.status = some 406 := by
  intro method raw pKey now e hneg he1 he2 hov
  rw [Validate_cases method raw pKey now e he1 he2]
  rcases hp : parseInt64 ((parseQuery raw).get strTs) with _ | i
  · rw [isValidTS_invalid now _ e hp]
    exact ⟨rfl, rfl⟩
  · obtain ⟨hb1, hb2⟩ := hov i hp
    rw [isValidTS_no_overflow now _ e i hp hb1 hb2]
    have hlt : ¬((if now - i < 0 then i - now else now - i) ≤ e) := by
      split_ifs <;> omega
    rw [decide_eq_false hlt]
    exact ⟨rfl, rfl⟩

/-- C9 witness: window `-3` rejects a request with no `ts` with a 406. -/
theorem C9_negative_window_witness :
    (Validate exGET [] exSecret 5 (-3)).1 = none ∧
    (Validate exGET [] exSecret 5 (-3)).2.map GoError.status = some 406 :=
  C9_negative_window exGET [] exSecret 5 (-3) (by norm_num) (by norm_num)
    (by norm_num) (fun i hi => by
      rw [show parseInt64 ((parseQuery []).get strTs) = none from by decide]
        at hi
      cases hi)

/-- C9 counterexample: with `ts = now - 2^63` the wrapped freshness check
passes even for window `-3`, and a correctly signed request validates fully
instead of returning the 406 error the claim asserts for all `ts`. -/
theorem C9_negative_window_counterexample :
    Validate exGET
      (((Values.add [] strApikey exPub).add strTs
          (asciiBytes "-9223372035154775808")).add strData
        (base64urlEncode (hmacSha256 exSecret (exGET ++ 58 ::
          ((Values.add [] strApikey exPub).add strTs
            (asciiBytes "-9223372035154775808")).encode)))).encode
      exSecret 1700000000 (-3) = (some [], none) := by
  rw [overflow_ex_out]
  decide

/-- C10: the `-2` bypass path never reads the secret key: validation results
under any two keys coincide, and in particular an empty secret key
validates with no error. -/
theorem C10_bypass_key_independent :
    (∀ (method raw k1 k2 : GoStr) (now : Int),
      Validate method raw k1 now (-2) = Validate method raw k2 now (-2)) ∧
    (∀ (method raw : GoStr) (now : Int),
      (Validate method raw [] now (-2)).2 = none) := by
  constructor
  · intro method raw k1 k2 now
    rw [Validate_neg2, Validate_neg2]
  · intro method raw now
    rw [Validate_neg2]

/-- Known-answer test for the SHA-256 embedding: the FIPS 180-4 digest of
`"abc"`. -/
theorem sha256_abc_kat : sha256 (asciiBytes "abc") =
    [0xba, 0x78, 0x16, 0xbf, 0x8f, 0x01, 0xcf, 0xea, 0x41, 0x41, 0x40, 0xde,
     0x5d, 0xae, 0x22, 0x23, 0xb0, 0x03, 0x61, 0xa3, 0x96, 0x17, 0x7a, 0x9c,
     0xb4, 0x10, 0xff, 0x61, 0xf2, 0x00, 0x15, 0xad] := by decide

end Hancock

